import Mathlib

/-!
Verification of the Skyscrapers puzzle engine (`logic.py`).

The engine is shallowly embedded: the grid is a `List (List Nat)` exactly as
the Python `self.grid` (0 denotes an empty cell), the clue dictionary becomes
a four-field structure, and every method of `SkyscraperPuzzle` becomes a Lean
function on a `Puzzle` state.  Methods that mutate `self.grid` return the new
state explicitly.  Python's unbounded recursion in `_solve_helper` is embedded
with an explicit fuel argument; the public `solve` supplies
`countZeros grid + 1` fuel, which dominates the recursion depth because every
recursive call fills one empty cell.
-/

namespace Skyscraper

/-- Grid size constant `GRID_SIZE = 6` from `logic.py`. -/
def GRID_SIZE : Nat := 6

/-- A grid is a list of rows of heights, `0` = empty (Python `self.grid`). -/
abbrev Grid := List (List Nat)

/-- The clue dictionary `self.clues` with its four direction keys. -/
structure Clues where
  top : List Nat
  right : List Nat
  bottom : List Nat
  left : List Nat
deriving DecidableEq, Repr

/-- The state owned by a `SkyscraperPuzzle` instance: the grid and the clues. -/
structure Puzzle where
  grid : Grid
  clues : Clues
deriving DecidableEq, Repr

/-- Read cell `(r, c)`; both Python accesses in range behave like `getD`
(out-of-range Python access raises instead; the raising behaviour is embedded
separately by `getCellE` below). -/
def cellg (g : Grid) (r c : Nat) : Nat := (g.getD r []).getD c 0

/-- Write cell `(r, c)` (Python `self.grid[row][col] = num`); `List.set` is a
no-op out of range, where Python would raise (see `setCellE`). -/
def setCell (g : Grid) (r c v : Nat) : Grid := g.set r ((g.getD r []).set c v)

/-- Number of empty cells of a grid. -/
def countZeros (g : Grid) : Nat := (g.map (fun row => row.count 0)).sum

/-- `check_visibility_from_direction(line)`: running-maximum scan, `-1` on a
line that still has an empty cell. -/
def check_visibility_from_direction (line : List Nat) : Int :=
  if line.contains 0 then -1
  else
    (((line.foldl
        (fun (acc : Nat × Nat) height =>
          if height > acc.2 then (acc.1 + 1, height) else acc)
        (0, 0)).1 : Nat) : Int)

/-- Column `col` of a grid, as built by the Python list comprehension
`[grid[row][col] for row in range(GRID_SIZE)]`. -/
def colOf (g : Grid) (c : Nat) : List Nat :=
  (List.range GRID_SIZE).map fun r => cellg g r c

/-- `check_visibility_constraints(grid)`: every completed column matches the
top/bottom clues and every completed row matches the left/right clues;
incomplete lines are skipped. -/
def check_visibility_constraints (clues : Clues) (grid : Grid) : Bool :=
  ((List.range GRID_SIZE).all fun col =>
    let column := colOf grid col
    if column.contains 0 then true
    else
      decide (check_visibility_from_direction column = (clues.top.getD col 0 : Int)) &&
      decide (check_visibility_from_direction column.reverse = (clues.bottom.getD col 0 : Int)))
  &&
  ((List.range GRID_SIZE).all fun row =>
    let r := grid.getD row []
    if r.contains 0 then true
    else
      decide (check_visibility_from_direction r = (clues.left.getD row 0 : Int)) &&
      decide (check_visibility_from_direction r.reverse = (clues.right.getD row 0 : Int)))

/-- The row/column conflict scan of `is_valid_move` (constraint 1): some index
`i` exposes `num` elsewhere in the row or column. -/
def conflict_exists (g : Grid) (row col num : Nat) : Bool :=
  (List.range GRID_SIZE).any fun i =>
    (decide (i ≠ col) && decide (cellg g row i = num)) ||
    (decide (i ≠ row) && decide (cellg g i col = num))

/-- `is_valid_move(row, col, num, check_visibility)`, statement by statement;
the second component is the state of `self` when the method returns (the
method never assigns to `self.grid` or `self.clues`, the visibility simulation
happens on the copy `temp_grid`). -/
def is_valid_move_st (p : Puzzle) (row col num : Nat) (check_visibility : Bool) :
    Bool × Puzzle :=
  if num < 1 || 6 < num then (false, p)
  else if conflict_exists p.grid row col num then (false, p)
  else if check_visibility then
    let temp_grid := setCell p.grid row col num
    if !(check_visibility_constraints p.clues temp_grid) then (false, p)
    else (true, p)
  else (true, p)

/-- The boolean result of `is_valid_move`. -/
def is_valid_move (p : Puzzle) (row col num : Nat) (check_visibility : Bool) : Bool :=
  (is_valid_move_st p row col num check_visibility).1

/-- `valid_count` inside `get_mrv`:
`sum(1 for num in range(1, GRID_SIZE + 1) if self.is_valid_move(row, col, num))`
(note the defaulted `check_visibility=False`). -/
def valid_count (p : Puzzle) (row col : Nat) : Nat :=
  (List.range' 1 GRID_SIZE).countP fun num => is_valid_move p row col num false

/-- The row-major scan order of the nested `for row / for col` loops. -/
def positions : List (Nat × Nat) :=
  (List.range GRID_SIZE).flatMap fun r => (List.range GRID_SIZE).map fun c => (r, c)

/-- The loop of `get_mrv` with its two accumulators `min_remaining` and
`best_pos`. -/
def mrv_loop (p : Puzzle) : List (Nat × Nat) → Nat → Option (Nat × Nat) → Option (Nat × Nat)
  | [], _, best_pos => best_pos
  | pos :: rest, min_remaining, best_pos =>
    if cellg p.grid pos.1 pos.2 = 0 then
      let vc := valid_count p pos.1 pos.2
      if 0 < vc ∧ vc < min_remaining then mrv_loop p rest vc (some pos)
      else mrv_loop p rest min_remaining best_pos
    else mrv_loop p rest min_remaining best_pos

/-- `get_mrv()`.  Python initialises `min_remaining = float('inf')`; every
candidate count is at most 6, so the sentinel `7` is an equivalent infinity. -/
def get_mrv (p : Puzzle) : Option (Nat × Nat) := mrv_loop p positions 7 none

/-- Write a cell of the puzzle state. -/
def setPuzzle (p : Puzzle) (row col num : Nat) : Puzzle :=
  { p with grid := setCell p.grid row col num }

/-- `check_win()`: all cells filled and all visibility constraints hold. -/
def check_win (p : Puzzle) : Bool :=
  if p.grid.any fun row => row.contains 0 then false
  else check_visibility_constraints p.clues p.grid

/-- The `for num in range(1, GRID_SIZE + 1)` loop of `_solve_helper`, with the
recursive call abstracted as `recur` (it is `_solve_helper` at one fuel less).
A failed recursive attempt is undone by writing `0` back (the backtrack line),
after which the loop continues with the next candidate. -/
def solveNums (recur : Puzzle → Bool × Puzzle) (p : Puzzle) (row col : Nat) :
    List Nat → Bool × Puzzle
  | [] => (false, p)
  | num :: rest =>
    if is_valid_move p row col num true then
      match recur (setPuzzle p row col num) with
      | (true, q) => (true, q)
      | (false, q) => solveNums recur (setPuzzle q row col 0) row col rest
    else solveNums recur p row col rest

/-- The body of `_solve_helper`, generic in the cell-selection policy `sel`
(the source uses `get_mrv`; the spec's baseline variant uses the first empty
cell).  `fuel` bounds the recursion depth. -/
def solveGen (sel : Puzzle → Option (Nat × Nat)) : Nat → Puzzle → Bool × Puzzle
  | 0, p => (false, p)
  | fuel + 1, p =>
    if check_win p then (true, p)
    else
      match sel p with
      | none => (false, p)
      | some (row, col) => solveNums (solveGen sel fuel) p row col (List.range' 1 GRID_SIZE)

/-- `_solve_helper()` with the MRV selector. -/
def solve_helper (fuel : Nat) (p : Puzzle) : Bool × Puzzle := solveGen get_mrv fuel p

/-- `solve()`.  The recursion of `_solve_helper` fills one empty cell per
level, so `countZeros + 1` fuel is never exhausted. -/
def solve (p : Puzzle) : Bool × Puzzle := solve_helper (countZeros p.grid + 1) p

/-- `make_move(row, col, num)`: validates with the defaulted
`check_visibility=False` and writes on success. -/
def make_move (p : Puzzle) (row col num : Nat) : Bool × Puzzle :=
  if is_valid_move p row col num false then (true, setPuzzle p row col num)
  else (false, p)

/-- `clear_cell(row, col)`. -/
def clear_cell (p : Puzzle) (row col : Nat) : Puzzle := setPuzzle p row col 0

/-- Modelled from the spec: the first-empty cell selector of §4.3 ("scan in
fixed row-major order; return the first cell with value 0"); no such function
exists in `src/`. -/
def first_empty (p : Puzzle) : Option (Nat × Nat) :=
  positions.find? fun pos => decide (cellg p.grid pos.1 pos.2 = 0)

/-- Modelled from the spec: `solveSimple()` of §4.3/§4.4/§6 — the same
backtracking search as `solve`, with the baseline first-empty selector and
full visibility checking in the placement test; no such function exists in
`src/`. -/
def solve_simple (p : Puzzle) : Bool × Puzzle :=
  solveGen first_empty (countZeros p.grid + 1) p

/-- The initial state built by `__init__`: an empty 6×6 grid and the
pre-populated clue lists. -/
def initPuzzle : Puzzle :=
  { grid := List.replicate GRID_SIZE (List.replicate GRID_SIZE 0)
    clues :=
      { top := [1, 2, 2, 3, 4, 3]
        right := [4, 3, 1, 2, 3, 2]
        bottom := [3, 3, 2, 1, 3, 2]
        left := [1, 2, 4, 2, 3, 2] } }

/-! ### Shape predicates and specification-side definitions -/

/-- The grid shape `__init__` establishes and every engine operation keeps:
six rows of six cells. -/
def Wf (g : Grid) : Prop := g.length = 6 ∧ ∀ row ∈ g, row.length = 6

/-- Well-formed puzzle state: 6×6 grid and four clue lists of length 6
(what `__init__` builds and the setup flow preserves). -/
def WfP (p : Puzzle) : Prop :=
  Wf p.grid ∧ p.clues.top.length = 6 ∧ p.clues.right.length = 6 ∧
    p.clues.bottom.length = 6 ∧ p.clues.left.length = 6

/-- Spec-side visibility count: the number of entries strictly greater than
every entry before them. -/
def countVisibleSpec (l : List Nat) : Nat :=
  (List.range l.length).countP fun i =>
    (List.range i).all fun j => decide (l.getD j 0 < l.getD i 0)

/-- Visibility of entry `i` of `l` over a prior maximum `m`: the entry beats
`m` and every entry before it. -/
def visPred (l : List Nat) (m : Nat) (i : Nat) : Bool :=
  decide (m < l.getD i 0) &&
    ((List.range i).all fun j => decide (l.getD j 0 < l.getD i 0))

/-- A position `get_mrv` may select: empty with a positive candidate count. -/
def mrvCand (p : Puzzle) (pos : Nat × Nat) : Prop :=
  cellg p.grid pos.1 pos.2 = 0 ∧ 0 < valid_count p pos.1 pos.2

/-- `C` agrees with `G` on every filled cell of `G`. -/
def Extends (G C : Grid) : Prop :=
  ∀ r < 6, ∀ c < 6, cellg G r c ≠ 0 → cellg C r c = cellg G r c

/-- Every cell of the grid is filled. -/
def Filled (C : Grid) : Prop := ∀ r < 6, ∀ c < 6, cellg C r c ≠ 0

/-- Every cell empty in `G` holds, in `C`, a value in `[1, 6]` that repeats
nowhere else in its row or its column of `C`. -/
def NewOk (G C : Grid) : Prop :=
  ∀ r < 6, ∀ c < 6, cellg G r c = 0 →
    1 ≤ cellg C r c ∧ cellg C r c ≤ 6 ∧
    (∀ i < 6, i ≠ c → cellg C r i ≠ cellg C r c) ∧
    (∀ i < 6, i ≠ r → cellg C i c ≠ cellg C r c)

/-- A completion of `G` the backtracking search can reach and `check_win`
accepts: it extends `G`, is filled, its newly filled cells conflict with
nothing in their lines, and every line matches its clue. -/
def GoodCompletion (clues : Clues) (G C : Grid) : Prop :=
  Wf C ∧ Extends G C ∧ Filled C ∧ NewOk G C ∧
    check_visibility_constraints clues C = true

/-- Every grid value is at most 6. -/
def ValsOk (G : Grid) : Prop := ∀ r < 6, ∀ c < 6, cellg G r c ≤ 6

/-- No nonzero value repeats within a row or a column. -/
def NoDups (G : Grid) : Prop :=
  ∀ r < 6, ∀ c < 6, cellg G r c ≠ 0 →
    (∀ i < 6, i ≠ c → cellg G r i ≠ cellg G r c) ∧
    (∀ i < 6, i ≠ r → cellg G i c ≠ cellg G r c)

/-- The state invariant every engine operation preserves. -/
def Inv (p : Puzzle) : Prop := Wf p.grid ∧ ValsOk p.grid ∧ NoDups p.grid

/-! ### The mutation surface and reachable states

Per the spec's data model (§3), the grid is owned by the engine and mutated
only through its operations; the clues are mutated only by the setup flow
(`gui.py` writes `self.puzzle.clues[direction][idx] = num`).  `Reachable`
closes the constructed state under that operation surface. -/

/-- The four clue directions. -/
inductive Dir
  | top
  | right
  | bottom
  | left
deriving DecidableEq, Repr

/-- The setup flow's clue write `self.puzzle.clues[direction][idx] = num`. -/
def set_clue (p : Puzzle) (d : Dir) (idx num : Nat) : Puzzle :=
  { p with
    clues :=
      match d with
      | .top => { p.clues with top := p.clues.top.set idx num }
      | .right => { p.clues with right := p.clues.right.set idx num }
      | .bottom => { p.clues with bottom := p.clues.bottom.set idx num }
      | .left => { p.clues with left := p.clues.left.set idx num } }

/-- States reachable from construction through the engine's operation
surface. -/
inductive Reachable : Puzzle → Prop
  | init : Reachable initPuzzle
  | clue_step {p : Puzzle} (d : Dir) (idx num : Nat) :
      Reachable p → Reachable (set_clue p d idx num)
  | move_step {p : Puzzle} (row col num : Nat) :
      Reachable p → Reachable (make_move p row col num).2
  | clear_step {p : Puzzle} (row col : Nat) :
      Reachable p → Reachable (clear_cell p row col)
  | solve_step {p : Puzzle} : Reachable p → Reachable (solve p).2
  | simple_step {p : Puzzle} : Reachable p → Reachable (solve_simple p).2

/-- Replay a list of `(row, col, num)` moves through `make_move`. -/
def applyMoves (p : Puzzle) (ms : List (Nat × Nat × Nat)) : Puzzle :=
  ms.foldl (fun q m => (make_move q m.1 m.2.1 m.2.2).2) p

/-! ### Exception-aware embedding

Python list indexing raises `IndexError` out of range; the embedding above
uses `getD`/`set`, which agree with Python exactly on the in-range accesses
the engine performs on its 6×6 grid.  To settle the error-handling claim, the
fallible operations are embedded a second time with `Except`, errors carrying
the state at the moment of the raise, and `solveE` reproduces the
`try/except` of `solve`. -/

/-- Python row read `grid[row]`: raises out of range. -/
def getRowE (g : Grid) (r : Nat) : Except String (List Nat) :=
  if r < g.length then .ok (g.getD r []) else .error "IndexError"

/-- Python cell read `grid[row][col]`. -/
def getCellE (g : Grid) (r c : Nat) : Except String Nat := do
  let row ← getRowE g r
  if c < row.length then pure (row.getD c 0) else throw "IndexError"

/-- Python cell write `grid[row][col] = v`. -/
def setCellE (g : Grid) (r c v : Nat) : Except String Grid :=
  if r < g.length then
    if c < (g.getD r []).length then pure (setCell g r c v)
    else throw "IndexError"
  else throw "IndexError"

/-- First disjunct `i != col and grid[row][i] == num` with Python's
short-circuit evaluation. -/
def disj1E (g : Grid) (row num i col : Nat) : Except String Bool :=
  if i = col then pure false
  else do
    let v ← getCellE g row i
    pure (decide (v = num))

/-- Second disjunct `i != row and grid[i][col] == num`. -/
def disj2E (g : Grid) (col num i row : Nat) : Except String Bool :=
  if i = row then pure false
  else do
    let v ← getCellE g i col
    pure (decide (v = num))

/-- The conflict loop `for i in range(GRID_SIZE)` of `is_valid_move`,
returning at the first conflict. -/
def conflict_loopE (g : Grid) (row col num : Nat) : List Nat → Except String Bool
  | [] => pure false
  | i :: rest => do
    let a ← disj1E g row num i col
    let hit ← if a then pure true else disj2E g col num i row
    if hit then pure true else conflict_loopE g row col num rest

/-- The column comprehension `[grid[row][col] for row in range(GRID_SIZE)]`. -/
def col_loopE (g : Grid) (c : Nat) : List Nat → Except String (List Nat)
  | [] => pure []
  | r :: rest => do
    let v ← getCellE g r c
    let vs ← col_loopE g c rest
    pure (v :: vs)

/-- Python clue read `clues[direction][i]`. -/
def clueAtE (l : List Nat) (i : Nat) : Except String Nat :=
  if i < l.length then pure (l.getD i 0) else throw "IndexError"

/-- The column loop of `check_visibility_constraints`. -/
def cvc_colsE (clues : Clues) (g : Grid) : List Nat → Except String Bool
  | [] => pure true
  | col :: rest => do
    let column ← col_loopE g col (List.range GRID_SIZE)
    if column.contains 0 then cvc_colsE clues g rest
    else do
      let t ← clueAtE clues.top col
      let b ← clueAtE clues.bottom col
      if check_visibility_from_direction column = (t : Int) ∧
          check_visibility_from_direction column.reverse = (b : Int) then
        cvc_colsE clues g rest
      else pure false

/-- The row loop of `check_visibility_constraints`. -/
def cvc_rowsE (clues : Clues) (g : Grid) : List Nat → Except String Bool
  | [] => pure true
  | row :: rest => do
    let r ← getRowE g row
    if r.contains 0 then cvc_rowsE clues g rest
    else do
      let lcl ← clueAtE clues.left row
      let rcl ← clueAtE clues.right row
      if check_visibility_from_direction r = (lcl : Int) ∧
          check_visibility_from_direction r.reverse = (rcl : Int) then
        cvc_rowsE clues g rest
      else pure false

/-- `check_visibility_constraints` with Python's raising accesses. -/
def check_visibility_constraintsE (clues : Clues) (g : Grid) : Except String Bool := do
  let cols ← cvc_colsE clues g (List.range GRID_SIZE)
  if cols then cvc_rowsE clues g (List.range GRID_SIZE) else pure false

/-- `is_valid_move` with Python's raising accesses. -/
def is_valid_moveE (p : Puzzle) (row col num : Nat) (check_visibility : Bool) :
    Except String Bool :=
  if num < 1 || 6 < num then pure false
  else do
    let hit ← conflict_loopE p.grid row col num (List.range GRID_SIZE)
    if hit then pure false
    else if check_visibility then do
      let temp_grid ← setCellE p.grid row col num
      let ok ← check_visibility_constraintsE p.clues temp_grid
      if !ok then pure false else pure true
    else pure true

/-- The candidate count of `get_mrv`, left to right over `1..6`. -/
def valid_countE (p : Puzzle) (row col : Nat) : List Nat → Except String Nat
  | [] => pure 0
  | num :: rest => do
    let b ← is_valid_moveE p row col num false
    let k ← valid_countE p row col rest
    pure (if b then k + 1 else k)

/-- The scan loop of `get_mrv` with raising cell reads. -/
def mrv_loopE (p : Puzzle) :
    List (Nat × Nat) → Nat → Option (Nat × Nat) → Except String (Option (Nat × Nat))
  | [], _, best_pos => pure best_pos
  | pos :: rest, min_remaining, best_pos => do
    let v ← getCellE p.grid pos.1 pos.2
    if v = 0 then do
      let vc ← valid_countE p pos.1 pos.2 (List.range' 1 GRID_SIZE)
      if 0 < vc ∧ vc < min_remaining then mrv_loopE p rest vc (some pos)
      else mrv_loopE p rest min_remaining best_pos
    else mrv_loopE p rest min_remaining best_pos

/-- `get_mrv` with raising accesses. -/
def get_mrvE (p : Puzzle) : Except String (Option (Nat × Nat)) :=
  mrv_loopE p positions 7 none

/-- `check_win` with raising accesses (the membership tests do not index; the
constraint check does). -/
def check_winE (p : Puzzle) : Except String Bool :=
  if p.grid.any fun row => row.contains 0 then pure false
  else check_visibility_constraintsE p.clues p.grid

/-- Attach the state at which an inner raise escapes. -/
def withState (p : Puzzle) : Except String α → Except (String × Puzzle) α
  | .ok a => .ok a
  | .error m => .error (m, p)

/-- The candidate loop of `_solve_helper` with raising writes; a raise
propagates carrying the grid as mutated so far. -/
def solveNumsE (recur : Puzzle → Except (String × Puzzle) (Bool × Puzzle))
    (p : Puzzle) (row col : Nat) : List Nat → Except (String × Puzzle) (Bool × Puzzle)
  | [] => pure (false, p)
  | num :: rest => do
    let ok ← withState p (is_valid_moveE p row col num true)
    if ok then do
      let g1 ← withState p (setCellE p.grid row col num)
      match recur { p with grid := g1 } with
      | .error e => .error e
      | .ok (true, q) => pure (true, q)
      | .ok (false, q) => do
        let g2 ← withState q (setCellE q.grid row col 0)
        solveNumsE recur { q with grid := g2 } row col rest
    else solveNumsE recur p row col rest

/-- `_solve_helper` with raising accesses, generic in the selector. -/
def solveGenE (selE : Puzzle → Except String (Option (Nat × Nat))) :
    Nat → Puzzle → Except (String × Puzzle) (Bool × Puzzle)
  | 0, p => pure (false, p)
  | fuel + 1, p => do
    let w ← withState p (check_winE p)
    if w then pure (true, p)
    else do
      let pos ← withState p (selE p)
      match pos with
      | none => pure (false, p)
      | some (row, col) =>
        solveNumsE (solveGenE selE fuel) p row col (List.range' 1 GRID_SIZE)

/-- `_solve_helper` with raising accesses and the MRV selector. -/
def solve_helperE (fuel : Nat) (p : Puzzle) :
    Except (String × Puzzle) (Bool × Puzzle) :=
  solveGenE get_mrvE fuel p

/-- `solve()`: `try: return self._solve_helper() except Exception as e:
print(...); return False` — a raise is caught at this single entry point and
converted to a `False` return (the diagnostic print is a side effect outside
the embedding); the grid stays as mutated at the moment of the raise. -/
def solveE (p : Puzzle) : Bool × Puzzle :=
  match solve_helperE (countZeros p.grid + 1) p with
  | .ok r => r
  | .error (_, q) => (false, q)

/-! ### Concrete states used by witnesses and counterexamples -/

/-- Row 0 one cell short of completion; every other cell empty. -/
def cexPuzzle : Puzzle :=
  { initPuzzle with
    grid := [2, 3, 4, 5, 6, 0] :: List.replicate 5 (List.replicate 6 0) }

/-- A filled grid with every row `[1..6]`: each column repeats one value six
times, yet every line's visibility counts match `dupClues`. -/
def dupPuzzle : Puzzle :=
  { grid := List.replicate 6 [1, 2, 3, 4, 5, 6]
    clues :=
      { top := List.replicate 6 1
        right := List.replicate 6 1
        bottom := List.replicate 6 1
        left := List.replicate 6 6 } }

/-- A filled grid (all ones) whose columns fail the default bottom clues:
`check_win` is false and the full grid leaves `get_mrv` nothing to select. -/
def allOnesPuzzle : Puzzle :=
  { initPuzzle with grid := List.replicate 6 (List.replicate 6 1) }

/-- A solution of the default clue set, entered cell by cell through
`make_move` in row-major order. -/
def solMoves : List (Nat × Nat × Nat) :=
  [(0, 0, 6), (0, 1, 1), (0, 2, 5), (0, 3, 4), (0, 4, 2), (0, 5, 3),
   (1, 0, 1), (1, 1, 6), (1, 2, 2), (1, 3, 5), (1, 4, 3), (1, 5, 4),
   (2, 0, 2), (2, 1, 4), (2, 2, 1), (2, 3, 3), (2, 4, 5), (2, 5, 6),
   (3, 0, 5), (3, 1, 3), (3, 2, 4), (3, 3, 1), (3, 4, 6), (3, 5, 2),
   (4, 0, 3), (4, 1, 5), (4, 2, 6), (4, 3, 2), (4, 4, 4), (4, 5, 1),
   (5, 0, 4), (5, 1, 2), (5, 2, 3), (5, 3, 6), (5, 4, 1), (5, 5, 5)]

/-- The reachable solved state: the default puzzle with a full solution
played through `make_move`. -/
def solvedPuzzle : Puzzle := applyMoves initPuzzle solMoves

/-- A malformed state (empty grid) on which the search raises at its first
indexed access. -/
def badPuzzle : Puzzle := { initPuzzle with grid := [] }

instance (g : Grid) : Decidable (Wf g) := by unfold Wf; infer_instance

instance (p : Puzzle) : Decidable (WfP p) := by unfold WfP; infer_instance

instance (p : Puzzle) (pos : Nat × Nat) : Decidable (mrvCand p pos) := by
  unfold mrvCand; infer_instance

/-! ### Basic lemmas on `getD`, `set` and cell access -/

theorem getD_set {α} (d : α) :
    ∀ (l : List α) (i j : Nat) (v : α),
      (l.set i v).getD j d = if i = j ∧ j < l.length then v else l.getD j d
  | [], i, j, v => by simp
  | x :: xs, 0, 0, v => by simp
  | x :: xs, 0, j + 1, v => by simp
  | x :: xs, i + 1, 0, v => by simp
  | x :: xs, i + 1, j + 1, v => by
    simpa [List.set, Nat.succ_lt_succ_iff] using getD_set d xs i j v

theorem set_getD_self {α} (d : α) : ∀ (l : List α) (i : Nat), l.set i (l.getD i d) = l
  | [], _ => rfl
  | _ :: _, 0 => rfl
  | x :: xs, i + 1 => congrArg (x :: ·) (set_getD_self d xs i)

theorem set_of_le {α} : ∀ (l : List α) (i : Nat) (v : α), l.length ≤ i → l.set i v = l
  | [], _, _, _ => rfl
  | _ :: _, 0, _, h => absurd h (by simp)
  | x :: xs, i + 1, v, h => congrArg (x :: ·) (set_of_le xs i v (by simpa using h))

theorem cellg_setCell_self (g : Grid) (r c v : Nat) (hr : r < g.length)
    (hc : c < (g.getD r []).length) : cellg (setCell g r c v) r c = v := by
  unfold cellg setCell
  rw [getD_set, if_pos ⟨rfl, hr⟩, getD_set, if_pos ⟨rfl, hc⟩]

theorem cellg_setCell_ne (g : Grid) (r c v r' c' : Nat) (h : r' ≠ r ∨ c' ≠ c) :
    cellg (setCell g r c v) r' c' = cellg g r' c' := by
  unfold cellg setCell
  rw [getD_set]
  split
  · next hcond =>
    obtain ⟨hre, _⟩ := hcond
    have hc : c' ≠ c := by
      rcases h with h | h
      · exact absurd hre.symm h
      · exact h
    rw [getD_set, if_neg (by intro hx; exact hc hx.1.symm), hre]
  · rfl

theorem setCell_restore (g : Grid) (r c v : Nat) (h : cellg g r c = 0) :
    setCell (setCell g r c v) r c 0 = g := by
  unfold setCell
  rcases Nat.lt_or_ge r g.length with hr | hr
  · rw [List.set_set, getD_set, if_pos ⟨rfl, hr⟩, List.set_set]
    unfold cellg at h
    rw [← h, set_getD_self, set_getD_self]
  · rw [set_of_le _ _ _ hr, set_of_le _ _ _ hr]

theorem length_setCell (g : Grid) (r c v : Nat) : (setCell g r c v).length = g.length := by
  unfold setCell; simp

theorem Wf_setCell {g : Grid} (r c v : Nat) (h : Wf g) : Wf (setCell g r c v) := by
  obtain ⟨hlen, hrows⟩ := h
  rcases Nat.lt_or_ge r g.length with hr | hr
  · refine ⟨by rw [length_setCell, hlen], ?_⟩
    intro row hrow
    rcases List.mem_or_eq_of_mem_set hrow with hmem | heq
    · exact hrows row hmem
    · subst heq
      rw [List.length_set]
      exact hrows _ (by rw [List.getD_eq_getElem _ _ hr]; exact List.getElem_mem hr)
  · unfold setCell
    rw [set_of_le _ _ _ hr]
    exact ⟨hlen, hrows⟩

/-! ### The visibility scan counts running maxima -/

theorem and_absorb_lt_left {m x e : Nat} (hm : m < x) :
    (decide (m < e) && decide (x < e)) = decide (x < e) := by
  by_cases h : x < e
  · simp [h, Nat.lt_trans hm h]
  · simp [h]

theorem and_absorb_lt_right {m x e : Nat} (hm : ¬m < x) :
    (decide (m < e) && decide (x < e)) = decide (m < e) := by
  by_cases h : m < e
  · simp [h, Nat.lt_of_le_of_lt (Nat.le_of_not_lt hm) h]
  · simp [h]

theorem visPred_zero (x : Nat) (xs : List Nat) (m : Nat) :
    visPred (x :: xs) m 0 = decide (m < x) := by
  simp [visPred]

theorem visPred_cons (x : Nat) (xs : List Nat) (m i : Nat) :
    visPred (x :: xs) m (i + 1) = (decide (m < xs.getD i 0) && visPred xs x i) := by
  unfold visPred
  rw [List.range_succ_eq_map, List.all_cons, List.all_map]
  have hfn : ((fun j => decide ((x :: xs).getD j 0 < (x :: xs).getD (i + 1) 0)) ∘ Nat.succ)
      = fun j => decide (xs.getD j 0 < xs.getD i 0) := by
    funext j; rfl
  rw [hfn]
  rfl

theorem vis_foldl (l : List Nat) : ∀ v m : Nat,
    (l.foldl
        (fun (acc : Nat × Nat) height =>
          if height > acc.2 then (acc.1 + 1, height) else acc)
        (v, m)).1
      = v + (List.range l.length).countP (visPred l m) := by
  induction l with
  | nil => intro v m; simp
  | cons x xs ih =>
    intro v m
    rw [List.foldl_cons, List.length_cons, List.range_succ_eq_map,
      List.countP_cons, List.countP_map]
    have hsucc : ((visPred (x :: xs) m) ∘ Nat.succ)
        = fun i => decide (m < xs.getD i 0) && visPred xs x i := by
      funext i
      exact visPred_cons x xs m i
    rw [hsucc, visPred_zero]
    by_cases hm : x > m
    · rw [if_pos hm, ih (v + 1) x]
      have hfun : (fun i => decide (m < xs.getD i 0) && visPred xs x i)
          = visPred xs x := by
        funext i
        unfold visPred
        rw [← Bool.and_assoc, and_absorb_lt_left hm]
      rw [hfun]
      simp [hm]
      omega
    · rw [if_neg hm, ih v m]
      have hfun : (fun i => decide (m < xs.getD i 0) && visPred xs x i)
          = visPred xs m := by
        funext i
        unfold visPred
        rw [← Bool.and_assoc, and_absorb_lt_right hm]
      rw [hfun]
      simp [hm]

theorem getD_mem_of_lt (l : List Nat) (i : Nat) (h : i < l.length) : l.getD i 0 ∈ l := by
  rw [List.getD_eq_getElem _ _ h]
  exact List.getElem_mem h

theorem cv_eq_spec (l : List Nat) (h : 0 ∉ l) :
    check_visibility_from_direction l = (countVisibleSpec l : Int) := by
  unfold check_visibility_from_direction
  have hc : l.contains 0 = false := by simpa using h
  rw [hc]
  simp only [Bool.false_eq_true, if_false]
  have := vis_foldl l 0 0
  rw [this, Nat.zero_add]
  have hcong : (List.range l.length).countP (visPred l 0) = countVisibleSpec l := by
    unfold countVisibleSpec
    refine List.countP_congr ?_
    intro i hi
    rw [List.mem_range] at hi
    have hne : l.getD i 0 ≠ 0 := fun he => h (he ▸ getD_mem_of_lt l i hi)
    unfold visPred
    have : decide (0 < l.getD i 0) = true :=
      decide_eq_true (Nat.pos_of_ne_zero hne)
    rw [this, Bool.true_and]
  rw [hcong]

/-! ### Claim C3 -/

/-- C3 counterexample: on `[3,1,4,1,5,9]` the scan counts 4 visible buildings
(the running maxima are 3, 4, 5, 9), not the 3 the claim asserts. -/
theorem C3_counterexample :
    check_visibility_from_direction [3, 1, 4, 1, 5, 9] = 4 ∧
      check_visibility_from_direction [3, 1, 4, 1, 5, 9] ≠ 3 := by
  decide

/-- C3 (amended): `check_visibility_from_direction` counts the entries
strictly greater than every entry before them (so the first entry of a
zero-free line is always counted), returns the distinguished value `-1`
exactly on lines containing a 0, and returns 4 on `[3,1,4,1,5,9]` (maxima
3, 4, 5, 9) and 1 on `[6,5,4,3,2,1]`. -/
theorem C3_check_visibility (line : List Nat) :
    (0 ∈ line → check_visibility_from_direction line = -1) ∧
    (0 ∉ line → check_visibility_from_direction line = (countVisibleSpec line : Int)) ∧
    check_visibility_from_direction [3, 1, 4, 1, 5, 9] = 4 ∧
    check_visibility_from_direction [6, 5, 4, 3, 2, 1] = 1 := by
  refine ⟨?_, cv_eq_spec line, by decide, by decide⟩
  intro h
  unfold check_visibility_from_direction
  have hc : line.contains 0 = true := by simpa using h
  rw [hc]
  rfl

/-- C3 witness: the two implications at concrete lines. -/
theorem C3_witness :
    check_visibility_from_direction [0, 2] = -1 ∧
    check_visibility_from_direction [2, 1] = (countVisibleSpec [2, 1] : Int) :=
  ⟨(C3_check_visibility [0, 2]).1 (by decide),
   (C3_check_visibility [2, 1]).2.1 (by decide)⟩

/-! ### Claim C7 -/

/-- C7: `is_valid_move` is pure — for every input, including
`check_visibility = true`, the state it returns is the state it was given;
the visibility simulation happens on the private copy `temp_grid` and
neither the grid nor the clues are ever written. -/
theorem C7_is_valid_move_pure (p : Puzzle) (row col num : Nat) (cv : Bool) :
    (is_valid_move_st p row col num cv).2 = p := by
  simp only [is_valid_move_st]
  repeat' split
  all_goals rfl

/-! ### Claim C1 -/

/-- C1 counterexample: with row 0 holding `[2,3,4,5,6,_]` under the default
clues, placing 1 at (0,5) fails `is_valid_move` **with** visibility checking
(the completed row shows 5 buildings from the left against the clue 1), yet
`make_move` accepts it and mutates the grid — so `make_move` does not apply
the visibility-checked validation the claim describes. -/
theorem C1_counterexample :
    is_valid_move cexPuzzle 0 5 1 true = false ∧
    (make_move cexPuzzle 0 5 1).1 = true ∧
    (make_move cexPuzzle 0 5 1).2 ≠ cexPuzzle := by
  decide

/-- C1 (amended): `make_move(row, col, num)` applies `is_valid_move` with
`check_visibility` defaulted to **false** (row/column uniqueness only); when
that check passes it writes `num` into the cell and returns true, and when it
fails the grid is left unchanged and it returns false. -/
theorem C1_make_move (p : Puzzle) (row col num : Nat) :
    (is_valid_move p row col num false = true →
      make_move p row col num = (true, setPuzzle p row col num)) ∧
    (is_valid_move p row col num false = false →
      make_move p row col num = (false, p)) := by
  constructor <;> intro h <;> simp [make_move, h]

/-- C1 witness: a concrete accepted move. -/
theorem C1_witness :
    is_valid_move initPuzzle 0 0 3 false = true ∧
    make_move initPuzzle 0 0 3 = (true, setPuzzle initPuzzle 0 0 3) :=
  ⟨by decide, (C1_make_move initPuzzle 0 0 3).1 (by decide)⟩

/-! ### Claim C10 -/

/-- C10: `check_win` checks only filledness and visibility clues, not
row/column uniqueness: `dupPuzzle` is completely filled, repeats the value 1
in rows 0 and 1 of column 0 (indeed each of its columns is constant), and
still `check_win` returns true. -/
theorem C10_check_win_no_uniqueness :
    check_win dupPuzzle = true ∧
    (∀ r < 6, ∀ c < 6, cellg dupPuzzle.grid r c ≠ 0) ∧
    cellg dupPuzzle.grid 0 0 = cellg dupPuzzle.grid 1 0 ∧ (0 : Nat) ≠ 1 := by
  decide

/-! ### Characterisation of `get_mrv` -/

theorem valid_count_le (p : Puzzle) (row col : Nat) : valid_count p row col ≤ 6 := by
  unfold valid_count
  calc (List.range' 1 GRID_SIZE).countP _ ≤ (List.range' 1 GRID_SIZE).length :=
        List.countP_le_length _
    _ = 6 := by rfl

theorem mem_positions_iff (pos : Nat × Nat) :
    pos ∈ positions ↔ pos.1 < 6 ∧ pos.2 < 6 := by
  unfold positions GRID_SIZE
  simp only [List.mem_flatMap, List.mem_map, List.mem_range]
  constructor
  · rintro ⟨r, hr, c, hc, rfl⟩
    exact ⟨hr, hc⟩
  · rintro ⟨h1, h2⟩
    exact ⟨pos.1, h1, pos.2, h2, rfl⟩

theorem mrv_loop_some_ne_none (p : Puzzle) :
    ∀ (l : List (Nat × Nat)) (m : Nat) (b : Nat × Nat),
      mrv_loop p l m (some b) ≠ none := by
  intro l
  induction l with
  | nil => intro m b h; exact Option.noConfusion h
  | cons pos rest ih =>
    intro m b
    simp only [mrv_loop]
    split
    · split
      · exact ih _ _
      · exact ih _ _
    · exact ih _ _

theorem mrv_loop_none_iff (p : Puzzle) :
    ∀ (l : List (Nat × Nat)) (m : Nat),
      mrv_loop p l m none = none ↔
        ∀ pos ∈ l, ¬(cellg p.grid pos.1 pos.2 = 0 ∧
          0 < valid_count p pos.1 pos.2 ∧ valid_count p pos.1 pos.2 < m) := by
  intro l
  induction l with
  | nil => intro m; simp [mrv_loop]
  | cons pos rest ih =>
    intro m
    simp only [mrv_loop]
    by_cases h0 : cellg p.grid pos.1 pos.2 = 0
    · rw [if_pos h0]
      by_cases hcond : 0 < valid_count p pos.1 pos.2 ∧ valid_count p pos.1 pos.2 < m
      · rw [if_pos hcond]
        constructor
        · intro h
          exact absurd h (mrv_loop_some_ne_none p rest _ pos)
        · intro h
          exact absurd ⟨h0, hcond.1, hcond.2⟩ (h pos (List.mem_cons_self pos rest))
      · rw [if_neg hcond]
        rw [ih m]
        constructor
        · intro h q hq
          rcases List.mem_cons.mp hq with rfl | hq'
          · rintro ⟨_, h1, h2⟩
            exact hcond ⟨h1, h2⟩
          · exact h q hq'
        · intro h q hq
          exact h q (List.mem_cons_of_mem _ hq)
    · rw [if_neg h0]
      rw [ih m]
      constructor
      · intro h q hq
        rcases List.mem_cons.mp hq with rfl | hq'
        · rintro ⟨h1, _⟩
          exact h0 h1
        · exact h q hq'
      · intro h q hq
        exact h q (List.mem_cons_of_mem _ hq)

theorem mrv_loop_some_spec (p : Puzzle) :
    ∀ (l : List (Nat × Nat)) (m : Nat) (best : Option (Nat × Nat)) (res : Nat × Nat),
      (best = none ∨ ∃ b, best = some b ∧ cellg p.grid b.1 b.2 = 0 ∧
        0 < valid_count p b.1 b.2 ∧ valid_count p b.1 b.2 = m) →
      mrv_loop p l m best = some res →
      (cellg p.grid res.1 res.2 = 0 ∧ 0 < valid_count p res.1 res.2) ∧
      valid_count p res.1 res.2 ≤ m ∧
      (∀ q ∈ l, cellg p.grid q.1 q.2 = 0 → 0 < valid_count p q.1 q.2 →
        valid_count p res.1 res.2 ≤ valid_count p q.1 q.2) ∧
      ((∃ l1 l2, l = l1 ++ res :: l2 ∧ valid_count p res.1 res.2 < m ∧
          ∀ q ∈ l1, cellg p.grid q.1 q.2 = 0 → 0 < valid_count p q.1 q.2 →
            valid_count p res.1 res.2 < valid_count p q.1 q.2) ∨
        best = some res) := by
  intro l
  induction l with
  | nil =>
    intro m best res hinv h
    simp only [mrv_loop] at h
    subst h
    rcases hinv with h | ⟨b, hb, hb0, hbpos, hbm⟩
    · exact Option.noConfusion h
    · cases Option.some.inj hb
      exact ⟨⟨hb0, hbpos⟩, Nat.le_of_eq hbm, by intro q hq; exact absurd hq (by simp),
        Or.inr rfl⟩
  | cons pos rest ih =>
    intro m best res hinv h
    simp only [mrv_loop] at h
    by_cases h0 : cellg p.grid pos.1 pos.2 = 0
    · rw [if_pos h0] at h
      by_cases hcond : 0 < valid_count p pos.1 pos.2 ∧ valid_count p pos.1 pos.2 < m
      · rw [if_pos hcond] at h
        obtain ⟨hcand, hle, hmin, hdisj⟩ :=
          ih (valid_count p pos.1 pos.2) (some pos) res
            (Or.inr ⟨pos, rfl, h0, hcond.1, rfl⟩) h
        refine ⟨hcand, Nat.le_trans hle (Nat.le_of_lt hcond.2), ?_, ?_⟩
        · intro q hq hq0 hqpos
          rcases List.mem_cons.mp hq with rfl | hq'
          · exact hle
          · exact hmin q hq' hq0 hqpos
        · rcases hdisj with ⟨l1, l2, heq, hlt, hstrict⟩ | hbest
          · refine Or.inl ⟨pos :: l1, l2, by rw [heq]; simp, Nat.lt_trans hlt hcond.2, ?_⟩
            intro q hq hq0 hqpos
            rcases List.mem_cons.mp hq with rfl | hq'
            · exact hlt
            · exact hstrict q hq' hq0 hqpos
          · cases Option.some.inj hbest
            exact Or.inl ⟨[], rest, rfl, hcond.2, by intro q hq; exact absurd hq (by simp)⟩
      · rw [if_neg hcond] at h
        obtain ⟨hcand, hle, hmin, hdisj⟩ := ih m best res hinv h
        have hpos_ge : 0 < valid_count p pos.1 pos.2 → m ≤ valid_count p pos.1 pos.2 := by
          intro hp
          by_contra hlt
          exact hcond ⟨hp, Nat.lt_of_not_le hlt⟩
        refine ⟨hcand, hle, ?_, ?_⟩
        · intro q hq hq0 hqpos
          rcases List.mem_cons.mp hq with rfl | hq'
          · exact Nat.le_trans hle (hpos_ge hqpos)
          · exact hmin q hq' hq0 hqpos
        · rcases hdisj with ⟨l1, l2, heq, hlt, hstrict⟩ | hbest
          · refine Or.inl ⟨pos :: l1, l2, by rw [heq]; simp, hlt, ?_⟩
            intro q hq hq0 hqpos
            rcases List.mem_cons.mp hq with rfl | hq'
            · exact Nat.lt_of_lt_of_le hlt (hpos_ge hqpos)
            · exact hstrict q hq' hq0 hqpos
          · exact Or.inr hbest
    · rw [if_neg h0] at h
      obtain ⟨hcand, hle, hmin, hdisj⟩ := ih m best res hinv h
      refine ⟨hcand, hle, ?_, ?_⟩
      · intro q hq hq0 hqpos
        rcases List.mem_cons.mp hq with rfl | hq'
        · exact absurd hq0 h0
        · exact hmin q hq' hq0 hqpos
      · rcases hdisj with ⟨l1, l2, heq, hlt, hstrict⟩ | hbest
        · refine Or.inl ⟨pos :: l1, l2, by rw [heq]; simp, hlt, ?_⟩
          intro q hq hq0 hqpos
          rcases List.mem_cons.mp hq with rfl | hq'
          · exact absurd hq0 h0
          · exact hstrict q hq' hq0 hqpos
        · exact Or.inr hbest

theorem get_mrv_none_iff (p : Puzzle) :
    get_mrv p = none ↔ ∀ pos ∈ positions, ¬mrvCand p pos := by
  unfold get_mrv
  rw [mrv_loop_none_iff p positions 7]
  constructor
  · intro h pos hpos hcand
    exact h pos hpos ⟨hcand.1, hcand.2,
      Nat.lt_of_le_of_lt (valid_count_le p pos.1 pos.2) (by omega)⟩
  · intro h pos hpos hfull
    exact h pos hpos ⟨hfull.1, hfull.2.1⟩

theorem get_mrv_some_spec (p : Puzzle) (res : Nat × Nat) (h : get_mrv p = some res) :
    mrvCand p res ∧
    (∀ q ∈ positions, mrvCand p q →
      valid_count p res.1 res.2 ≤ valid_count p q.1 q.2) ∧
    ∃ l1 l2, positions = l1 ++ res :: l2 ∧
      ∀ q ∈ l1, mrvCand p q →
        valid_count p res.1 res.2 < valid_count p q.1 q.2 := by
  obtain ⟨hcand, _, hmin, hdisj⟩ :=
    mrv_loop_some_spec p positions 7 none res (Or.inl rfl) h
  rcases hdisj with ⟨l1, l2, heq, _, hstrict⟩ | hbest
  · exact ⟨hcand, fun q hq hc => hmin q hq hc.1 hc.2,
      l1, l2, heq, fun q hq hc => hstrict q hq hc.1 hc.2⟩
  · exact Option.noConfusion hbest

theorem get_mrv_some_props (p : Puzzle) (res : Nat × Nat) (h : get_mrv p = some res) :
    res.1 < 6 ∧ res.2 < 6 ∧ cellg p.grid res.1 res.2 = 0 := by
  obtain ⟨hcand, _, l1, l2, heq, _⟩ := get_mrv_some_spec p res h
  have hmem : res ∈ positions := by rw [heq]; exact List.mem_append_right _ (List.mem_cons_self _ _)
  obtain ⟨h1, h2⟩ := (mem_positions_iff res).mp hmem
  exact ⟨h1, h2, hcand.1⟩

/-! ### Claim C6 -/

/-- C6: `get_mrv` counts for every empty cell how many values in `[1,6]` pass
`is_valid_move` without visibility checking, and returns the empty cell with
the smallest strictly positive such count, earliest in row-major order on a
tie; empty cells with zero candidates are never selected, and `none` is
returned exactly when no empty cell has a positive count. -/
theorem C6_get_mrv (p : Puzzle) :
    (get_mrv p = none ↔ ∀ pos ∈ positions, ¬mrvCand p pos) ∧
    (∀ res, get_mrv p = some res →
      mrvCand p res ∧
      (∀ q ∈ positions, mrvCand p q →
        valid_count p res.1 res.2 ≤ valid_count p q.1 q.2) ∧
      ∃ l1 l2, positions = l1 ++ res :: l2 ∧
        ∀ q ∈ l1, mrvCand p q →
          valid_count p res.1 res.2 < valid_count p q.1 q.2) :=
  ⟨get_mrv_none_iff p, fun res h => get_mrv_some_spec p res h⟩

/-- C6 witness: on the freshly constructed puzzle every cell is empty with
count 6, and the scan selects `(0, 0)`. -/
theorem C6_witness :
    mrvCand initPuzzle (0, 0) ∧
    (∀ q ∈ positions, mrvCand initPuzzle q →
      valid_count initPuzzle 0 0 ≤ valid_count initPuzzle q.1 q.2) ∧
    ∃ l1 l2, positions = l1 ++ (0, 0) :: l2 ∧
      ∀ q ∈ l1, mrvCand initPuzzle q →
        valid_count initPuzzle 0 0 < valid_count initPuzzle q.1 q.2 :=
  (C6_get_mrv initPuzzle).2 (0, 0) (by decide)

/-! ### Elementary facts about the search state -/

theorem setPuzzle_clues (p : Puzzle) (row col num : Nat) :
    (setPuzzle p row col num).clues = p.clues := rfl

theorem setPuzzle_restore (p : Puzzle) (row col v : Nat)
    (h : cellg p.grid row col = 0) :
    setPuzzle (setPuzzle p row col v) row col 0 = p := by
  cases p with
  | mk g clues =>
    unfold setPuzzle
    simp only
    rw [setCell_restore g row col v h]

theorem solveNums_clues (recur : Puzzle → Bool × Puzzle)
    (hrec : ∀ q, ((recur q).2).clues = q.clues) (row col : Nat) :
    ∀ (nums : List Nat) (p : Puzzle),
      ((solveNums recur p row col nums).2).clues = p.clues := by
  intro nums
  induction nums with
  | nil => intro p; rfl
  | cons num rest ih =>
    intro p
    simp only [solveNums]
    split
    · rcases hq : recur (setPuzzle p row col num) with ⟨b, q⟩
      have hcl : q.clues = p.clues := by
        have := hrec (setPuzzle p row col num)
        rw [hq] at this
        exact this
      cases b
      · simpa [hq, ih] using hcl
      · simpa [hq] using hcl
    · exact ih p

theorem solveGen_clues (sel : Puzzle → Option (Nat × Nat)) :
    ∀ (fuel : Nat) (p : Puzzle), ((solveGen sel fuel p).2).clues = p.clues := by
  intro fuel
  induction fuel with
  | zero => intro p; rfl
  | succ fuel ih =>
    intro p
    simp only [solveGen]
    split
    · rfl
    · rcases hsel : sel p with _ | ⟨row, col⟩
      · rfl
      · exact solveNums_clues (solveGen sel fuel) ih row col _ p

theorem solveNums_restore (recur : Puzzle → Bool × Puzzle)
    (hrec : ∀ q, (recur q).1 = false → (recur q).2 = q) (row col : Nat) :
    ∀ (nums : List Nat) (p : Puzzle), cellg p.grid row col = 0 →
      (solveNums recur p row col nums).1 = false →
      (solveNums recur p row col nums).2 = p := by
  intro nums
  induction nums with
  | nil => intro p _ _; rfl
  | cons num rest ih =>
    intro p h0 hf
    simp only [solveNums] at hf ⊢
    by_cases hv : is_valid_move p row col num true = true
    · rw [if_pos hv] at hf ⊢
      rcases hq : recur (setPuzzle p row col num) with ⟨b, q⟩
      rw [hq] at hf
      cases b
      · have hq2 : q = setPuzzle p row col num := by
          have := hrec (setPuzzle p row col num)
          rw [hq] at this
          exact this rfl
        simp only at hf ⊢
        subst hq2
        rw [setPuzzle_restore p row col num h0] at hf ⊢
        exact ih p h0 hf
      · simp at hf
    · rw [if_neg hv] at hf ⊢
      exact ih p h0 hf

theorem solveGen_restore (sel : Puzzle → Option (Nat × Nat))
    (hsel : ∀ p pos, sel p = some pos → cellg p.grid pos.1 pos.2 = 0) :
    ∀ (fuel : Nat) (p : Puzzle), (solveGen sel fuel p).1 = false →
      (solveGen sel fuel p).2 = p := by
  intro fuel
  induction fuel with
  | zero => intro p _; rfl
  | succ fuel ih =>
    intro p hf
    simp only [solveGen] at hf ⊢
    by_cases hw : check_win p = true
    · rw [if_pos hw] at hf
      simp at hf
    · rw [if_neg hw] at hf ⊢
      rcases hselp : sel p with _ | ⟨row, col⟩
      · rfl
      · rw [hselp] at hf
        exact solveNums_restore (solveGen sel fuel) ih row col _ p
          (hsel p (row, col) hselp) hf

theorem count_zero_set (v : Nat) (hv : v ≠ 0) :
    ∀ (l : List Nat) (c : Nat), c < l.length → l.getD c 0 = 0 →
      (l.set c v).count 0 + 1 = l.count 0
  | [], c, hc, _ => absurd hc (by simp)
  | x :: xs, 0, _, h0 => by
    have hx : x = 0 := h0
    subst hx
    simp [List.count_cons, hv]
  | x :: xs, c + 1, hc, h0 => by
    have := count_zero_set v hv xs c (by simpa using hc) h0
    simp only [List.set, List.count_cons]
    omega

theorem countZeros_setCell (v : Nat) (hv : v ≠ 0) :
    ∀ (g : Grid) (r c : Nat), r < g.length → c < (g.getD r []).length →
      cellg g r c = 0 → countZeros (setCell g r c v) + 1 = countZeros g
  | [], r, c, hr, _, _ => absurd hr (by simp)
  | row :: rows, 0, c, _, hc, h0 => by
    have hstep := count_zero_set v hv row c hc h0
    show countZeros ((row.set c v) :: rows) + 1 = countZeros (row :: rows)
    unfold countZeros
    simp only [List.map_cons, List.sum_cons]
    omega
  | row :: rows, r + 1, c, hr, hc, h0 => by
    have hstep := countZeros_setCell v hv rows r c (by simpa using hr) hc h0
    show countZeros (row :: setCell rows r c v) + 1 = countZeros (row :: rows)
    unfold countZeros at hstep ⊢
    simp only [List.map_cons, List.sum_cons]
    omega

/-! ### Characterisation of `is_valid_move` -/

theorem is_valid_move_num_range {p : Puzzle} {row col num : Nat} {cv : Bool}
    (h : is_valid_move p row col num cv = true) : 1 ≤ num ∧ num ≤ 6 := by
  unfold is_valid_move is_valid_move_st at h
  by_cases h1 : num < 1 || 6 < num
  · rw [if_pos h1] at h
    exact absurd h (by simp)
  · simp only [Bool.or_eq_true, decide_eq_true_eq, not_or] at h1
    omega

theorem is_valid_move_conflict_false {p : Puzzle} {row col num : Nat} {cv : Bool}
    (h : is_valid_move p row col num cv = true) :
    conflict_exists p.grid row col num = false := by
  unfold is_valid_move is_valid_move_st at h
  by_cases h1 : num < 1 || 6 < num
  · rw [if_pos h1] at h
    exact absurd h (by simp)
  · rw [if_neg h1] at h
    by_cases h2 : conflict_exists p.grid row col num
    · rw [if_pos h2] at h
      exact absurd h (by simp)
    · exact Bool.not_eq_true _ ▸ (by simpa using h2)

theorem is_valid_move_cvc {p : Puzzle} {row col num : Nat}
    (h : is_valid_move p row col num true = true) :
    check_visibility_constraints p.clues (setCell p.grid row col num) = true := by
  unfold is_valid_move is_valid_move_st at h
  by_cases h1 : num < 1 || 6 < num
  · rw [if_pos h1] at h
    exact absurd h (by simp)
  · rw [if_neg h1] at h
    by_cases h2 : conflict_exists p.grid row col num
    · rw [if_pos h2] at h
      exact absurd h (by simp)
    · rw [if_neg h2, if_pos rfl] at h
      by_cases h3 : check_visibility_constraints p.clues (setCell p.grid row col num)
      · exact h3
      · rw [if_pos (by simpa using h3)] at h
        exact absurd h (by simp)

theorem is_valid_move_of_base {p : Puzzle} {row col num : Nat}
    (h : is_valid_move p row col num false = true)
    (hc : check_visibility_constraints p.clues (setCell p.grid row col num) = true) :
    is_valid_move p row col num true = true := by
  unfold is_valid_move is_valid_move_st at h ⊢
  by_cases h1 : num < 1 || 6 < num
  · rw [if_pos h1] at h
    exact absurd h (by simp)
  · rw [if_neg h1] at h ⊢
    by_cases h2 : conflict_exists p.grid row col num
    · rw [if_pos h2] at h
      exact absurd h (by simp)
    · rw [if_neg h2, if_pos rfl]
      simp [hc]

theorem is_valid_move_base_of {p : Puzzle} {row col num : Nat} {cv : Bool}
    (h : is_valid_move p row col num cv = true) :
    is_valid_move p row col num false = true := by
  obtain ⟨h1, h2⟩ := is_valid_move_num_range h
  have h3 := is_valid_move_conflict_false h
  unfold is_valid_move is_valid_move_st
  rw [if_neg (by simp; omega), if_neg (by simp [h3])]
  rfl

theorem is_valid_move_intro (p : Puzzle) (row col num : Nat)
    (h1 : 1 ≤ num) (h2 : num ≤ 6)
    (h3 : conflict_exists p.grid row col num = false) :
    is_valid_move p row col num false = true := by
  unfold is_valid_move is_valid_move_st
  rw [if_neg (by simp; omega), if_neg (by simp [h3])]
  rfl

theorem conflict_exists_iff (g : Grid) (row col num : Nat) :
    conflict_exists g row col num = true ↔
      ∃ i < 6, (i ≠ col ∧ cellg g row i = num) ∨ (i ≠ row ∧ cellg g i col = num) := by
  unfold conflict_exists GRID_SIZE
  rw [List.any_eq_true]
  constructor
  · rintro ⟨i, hi, hp⟩
    rw [List.mem_range] at hi
    refine ⟨i, hi, ?_⟩
    rcases Bool.or_eq_true _ _ |>.mp hp with hp | hp
    · rcases Bool.and_eq_true _ _ |>.mp hp with ⟨ha, hb⟩
      exact Or.inl ⟨of_decide_eq_true ha, of_decide_eq_true hb⟩
    · rcases Bool.and_eq_true _ _ |>.mp hp with ⟨ha, hb⟩
      exact Or.inr ⟨of_decide_eq_true ha, of_decide_eq_true hb⟩
  · rintro ⟨i, hi, hp⟩
    refine ⟨i, List.mem_range.mpr hi, ?_⟩
    rcases hp with ⟨ha, hb⟩ | ⟨ha, hb⟩
    · exact Bool.or_eq_true _ _ |>.mpr (Or.inl (by simp [ha, hb]))
    · exact Bool.or_eq_true _ _ |>.mpr (Or.inr (by simp [ha, hb]))

theorem conflict_exists_false_iff (g : Grid) (row col num : Nat) :
    conflict_exists g row col num = false ↔
      ∀ i < 6, (i ≠ col → cellg g row i ≠ num) ∧ (i ≠ row → cellg g i col ≠ num) := by
  rw [← Bool.not_eq_true, conflict_exists_iff]
  constructor
  · intro h i hi
    constructor
    · intro hic he
      exact h ⟨i, hi, Or.inl ⟨hic, he⟩⟩
    · intro hir he
      exact h ⟨i, hi, Or.inr ⟨hir, he⟩⟩
  · rintro h ⟨i, hi, hp | hp⟩
    · exact (h i hi).1 hp.1 hp.2
    · exact (h i hi).2 hp.1 hp.2

/-! ### Rows, columns and membership -/

theorem row_length {g : Grid} (hwf : Wf g) {r : Nat} (hr : r < 6) :
    (g.getD r []).length = 6 := by
  obtain ⟨hlen, hrows⟩ := hwf
  have hr' : r < g.length := by omega
  refine hrows _ ?_
  rw [List.getD_eq_getElem _ _ hr']
  exact List.getElem_mem hr'

theorem mem_rowlist_iff {g : Grid} (hwf : Wf g) {r : Nat} (hr : r < 6) (v : Nat) :
    v ∈ g.getD r [] ↔ ∃ c, c < 6 ∧ cellg g r c = v := by
  have hl : (g.getD r []).length = 6 := row_length hwf hr
  rw [List.mem_iff_getElem]
  constructor
  · rintro ⟨i, hi, he⟩
    refine ⟨i, by omega, ?_⟩
    unfold cellg
    rw [List.getD_eq_getElem _ _ hi]
    exact he
  · rintro ⟨c, hc, he⟩
    refine ⟨c, by omega, ?_⟩
    unfold cellg at he
    rw [List.getD_eq_getElem _ _ (by omega : c < (g.getD r []).length)] at he
    exact he

theorem mem_colOf_iff (g : Grid) (c : Nat) (v : Nat) :
    v ∈ colOf g c ↔ ∃ r, r < 6 ∧ cellg g r c = v := by
  unfold colOf GRID_SIZE
  simp only [List.mem_map, List.mem_range]

theorem not_contains_zero_iff {l : List Nat} :
    l.contains 0 = false ↔ ∀ i < l.length, l.getD i 0 ≠ 0 := by
  have h1 : l.contains 0 = false ↔ ¬(0 ∈ l) := by simp
  rw [h1, List.mem_iff_getElem]
  constructor
  · intro h i hi he
    refine h ⟨i, hi, ?_⟩
    rw [← List.getD_eq_getElem _ _ hi]
    exact he
  · rintro h ⟨i, hi, he⟩
    refine h i hi ?_
    rw [List.getD_eq_getElem _ _ hi]
    exact he

theorem check_win_parts {p : Puzzle} (h : check_win p = true) :
    (p.grid.any fun row => row.contains 0) = false ∧
      check_visibility_constraints p.clues p.grid = true := by
  unfold check_win at h
  by_cases ha : (p.grid.any fun row => row.contains 0) = true
  · rw [if_pos ha] at h
    exact absurd h (by simp)
  · rw [if_neg ha] at h
    exact ⟨by simpa using ha, h⟩

theorem check_win_intro {p : Puzzle}
    (h1 : (p.grid.any fun row => row.contains 0) = false)
    (h2 : check_visibility_constraints p.clues p.grid = true) :
    check_win p = true := by
  unfold check_win
  rw [h1]
  simpa using h2

theorem filled_of_no_zero {g : Grid} (hwf : Wf g)
    (h : (g.any fun row => row.contains 0) = false) : Filled g := by
  intro r hr c hc
  rw [List.any_eq_false] at h
  have hrow : g.getD r [] ∈ g := by
    have hr' : r < g.length := by have := hwf.1; omega
    rw [List.getD_eq_getElem _ _ hr']
    exact List.getElem_mem hr'
  have := h _ hrow
  rw [Bool.not_eq_true, not_contains_zero_iff] at this
  exact this c (by rw [row_length hwf hr]; omega)

theorem no_zero_of_filled {g : Grid} (hwf : Wf g) (h : Filled g) :
    (g.any fun row => row.contains 0) = false := by
  rw [List.any_eq_false]
  intro row hrow
  obtain ⟨r, hr, he⟩ := List.mem_iff_getElem.mp hrow
  rw [Bool.not_eq_true, not_contains_zero_iff]
  intro i hi h0
  have hr6 : r < 6 := by
    have := hwf.1
    omega
  have hrowD : g.getD r [] = row := by
    rw [List.getD_eq_getElem _ _ hr]
    exact he
  have hi6 : i < 6 := by
    rw [← hrowD] at hi
    rw [row_length hwf hr6] at hi
    exact hi
  refine h r hr6 i hi6 ?_
  unfold cellg
  rw [hrowD]
  exact h0

/-! ### Claim C4 -/

/-- C4: whenever `_solve_helper` (at any fuel) or `solve` returns false, the
state is exactly the state the call was entered with — every failed recursive
attempt writes its cell back to 0 before returning. -/
theorem C4_failed_search_restores :
    (∀ fuel p, (solve_helper fuel p).1 = false → (solve_helper fuel p).2 = p) ∧
    (∀ p, (solve p).1 = false → (solve p).2 = p) := by
  have hsel : ∀ p pos, get_mrv p = some pos → cellg p.grid pos.1 pos.2 = 0 :=
    fun p pos h => (get_mrv_some_props p pos h).2.2
  exact ⟨fun fuel p => solveGen_restore get_mrv hsel fuel p,
    fun p => solveGen_restore get_mrv hsel _ p⟩

/-- C4 witness: on the filled all-ones grid the search fails immediately and
leaves the state untouched. -/
theorem C4_witness :
    (solve_helper 1 allOnesPuzzle).2 = allOnesPuzzle ∧
    (solve allOnesPuzzle).2 = allOnesPuzzle :=
  ⟨C4_failed_search_restores.1 1 allOnesPuzzle (by decide),
   C4_failed_search_restores.2 allOnesPuzzle (by decide)⟩

/-! ### Claim C5 -/

/-- C5: on a well-formed grid with `(row, col)` empty, `is_valid_move` without
visibility checking accepts `num` in `[1,6]` exactly when `num` appears
nowhere in row `row` nor in column `col`, and any `num` outside `[1,6]` is
rejected by a `false` return (no error). -/
theorem C5_is_valid_move (p : Puzzle) (row col num : Nat)
    (hr : row < 6) (hc : col < 6) (hwf : Wf p.grid)
    (hempty : cellg p.grid row col = 0) :
    ((1 ≤ num ∧ num ≤ 6) →
      (is_valid_move p row col num false = true ↔
        ¬num ∈ p.grid.getD row [] ∧ ¬num ∈ colOf p.grid col)) ∧
    ((num < 1 ∨ 6 < num) → is_valid_move p row col num false = false) := by
  constructor
  · rintro ⟨h1, h2⟩
    have hnum0 : num ≠ 0 := by omega
    constructor
    · intro hv
      have hcf := (conflict_exists_false_iff p.grid row col num).mp
        (is_valid_move_conflict_false hv)
      constructor
      · intro hmem
        obtain ⟨i, hi, he⟩ := (mem_rowlist_iff hwf hr num).mp hmem
        have hic : i ≠ col := by
          intro hih
          rw [hih, hempty] at he
          exact hnum0 he.symm
        exact (hcf i hi).1 hic he
      · intro hmem
        obtain ⟨i, hi, he⟩ := (mem_colOf_iff p.grid col num).mp hmem
        have hir : i ≠ row := by
          intro hih
          rw [hih, hempty] at he
          exact hnum0 he.symm
        exact (hcf i hi).2 hir he
    · rintro ⟨hrow, hcol⟩
      refine is_valid_move_intro p row col num h1 h2 ?_
      rw [conflict_exists_false_iff]
      intro i hi
      constructor
      · intro _ he
        exact hrow ((mem_rowlist_iff hwf hr num).mpr ⟨i, hi, he⟩)
      · intro _ he
        exact hcol ((mem_colOf_iff p.grid col num).mpr ⟨i, hi, he⟩)
  · intro h
    unfold is_valid_move is_valid_move_st
    rw [if_pos (by simp; omega)]

/-- C5 witness: the in-range move `3` at `(0, 0)` of the fresh puzzle. -/
theorem C5_witness :
    is_valid_move initPuzzle 0 0 3 false = true ↔
      ¬(3 : Nat) ∈ initPuzzle.grid.getD 0 [] ∧ ¬(3 : Nat) ∈ colOf initPuzzle.grid 0 :=
  (C5_is_valid_move initPuzzle 0 0 3 (by decide) (by decide) (by decide) (by decide)).1
    (by decide)

/-! ### Structure of `check_visibility_constraints` -/

theorem colOf_length (g : Grid) (c : Nat) : (colOf g c).length = 6 := by
  simp [colOf, GRID_SIZE]

theorem colOf_getD (g : Grid) (c r : Nat) (hr : r < 6) :
    (colOf g c).getD r 0 = cellg g r c := by
  unfold colOf GRID_SIZE
  rw [List.getD_eq_getElem _ _ (by simpa using hr)]
  simp

theorem cvc_true_iff (clues : Clues) (grid : Grid) :
    check_visibility_constraints clues grid = true ↔
      (∀ col < 6, (colOf grid col).contains 0 = false →
        check_visibility_from_direction (colOf grid col) = (clues.top.getD col 0 : Int) ∧
        check_visibility_from_direction (colOf grid col).reverse = (clues.bottom.getD col 0 : Int)) ∧
      (∀ row < 6, (grid.getD row []).contains 0 = false →
        check_visibility_from_direction (grid.getD row []) = (clues.left.getD row 0 : Int) ∧
        check_visibility_from_direction (grid.getD row []).reverse = (clues.right.getD row 0 : Int)) := by
  unfold check_visibility_constraints GRID_SIZE
  rw [Bool.and_eq_true, List.all_eq_true, List.all_eq_true]
  constructor
  · rintro ⟨hA, hB⟩
    constructor
    · intro col hcol hfull
      have h := hA col (List.mem_range.mpr hcol)
      simp only [hfull] at h
      rw [if_neg (by simp)] at h
      rcases Bool.and_eq_true _ _ |>.mp h with ⟨h1, h2⟩
      exact ⟨of_decide_eq_true h1, of_decide_eq_true h2⟩
    · intro row hrow hfull
      have h := hB row (List.mem_range.mpr hrow)
      simp only [hfull] at h
      rw [if_neg (by simp)] at h
      rcases Bool.and_eq_true _ _ |>.mp h with ⟨h1, h2⟩
      exact ⟨of_decide_eq_true h1, of_decide_eq_true h2⟩
  · rintro ⟨hA, hB⟩
    constructor
    · intro col hcol
      rw [List.mem_range] at hcol
      by_cases hfull : (colOf grid col).contains 0 = true
      · have h0 : 0 ∈ colOf grid col := by simpa using hfull
        simp [h0]
      · have hfull' : (colOf grid col).contains 0 = false := by
          simpa using hfull
        obtain ⟨h1, h2⟩ := hA col hcol hfull'
        simp [hfull', h1, h2]
    · intro row hrow
      rw [List.mem_range] at hrow
      by_cases hfull : (grid.getD row []).contains 0 = true
      · have h0 : 0 ∈ grid.getD row [] := by simpa using hfull
        simp only [List.getD_eq_getElem?_getD] at h0
        simp [h0]
      · have hfull' : (grid.getD row []).contains 0 = false := by
          simpa using hfull
        obtain ⟨h1, h2⟩ := hB row hrow hfull'
        simp only [List.getD_eq_getElem?_getD] at h1 h2
        simp [h1, h2]

theorem cvc_of_consistent {clues : Clues} {G C : Grid} (hwG : Wf G) (hwC : Wf C)
    (hext : Extends G C) (hfC : Filled C)
    (hC : check_visibility_constraints clues C = true) :
    check_visibility_constraints clues G = true := by
  rw [cvc_true_iff] at hC ⊢
  constructor
  · intro col hcol hfull
    have hcoleq : colOf G col = colOf C col := by
      apply List.map_congr_left
      intro r hrmem
      rw [List.mem_range] at hrmem
      have hne : cellg G r col ≠ 0 := by
        intro h0
        refine not_contains_zero_iff.mp hfull r ?_ ?_
        · rw [colOf_length]
          exact hrmem
        · rw [colOf_getD G col r hrmem]
          exact h0
      exact (hext r hrmem col hcol hne).symm
    have hfullC : (colOf C col).contains 0 = false := by
      rw [not_contains_zero_iff]
      intro i hi
      rw [colOf_length] at hi
      rw [colOf_getD C col i hi]
      exact hfC i hi col hcol
    rw [hcoleq]
    exact hC.1 col hcol hfullC
  · intro row hrow hfull
    have hroweq : G.getD row [] = C.getD row [] := by
      apply List.ext_getElem (by rw [row_length hwG hrow, row_length hwC hrow])
      intro i h1 h2
      have hi6 : i < 6 := by
        rw [row_length hwG hrow] at h1
        exact h1
      have hne : cellg G row i ≠ 0 := by
        intro h0
        exact not_contains_zero_iff.mp hfull i h1 h0
      have hCG : cellg C row i = cellg G row i := hext row hrow i hi6 hne
      unfold cellg at hCG
      rw [← List.getD_eq_getElem (G.getD row []) 0 h1, ← List.getD_eq_getElem (C.getD row []) 0 h2]
      exact hCG.symm
    have hfullC : (C.getD row []).contains 0 = false := by
      rw [not_contains_zero_iff]
      intro i hi
      rw [row_length hwC hrow] at hi
      exact hfC row hrow i hi
    rw [hroweq]
    exact hC.2 row hrow hfullC

theorem grid_eq_of_cells {G C : Grid} (hwG : Wf G) (hwC : Wf C)
    (h : ∀ r < 6, ∀ c < 6, cellg G r c = cellg C r c) : G = C := by
  apply List.ext_getElem (by rw [hwG.1, hwC.1])
  intro r hr1 hr2
  have hr6 : r < 6 := by
    have := hwG.1
    omega
  have hGr : G.getD r [] = G[r] := List.getD_eq_getElem G [] hr1
  have hCr : C.getD r [] = C[r] := List.getD_eq_getElem C [] hr2
  apply List.ext_getElem
  · rw [← hGr, ← hCr, row_length hwG hr6, row_length hwC hr6]
  · intro i hi1 hi2
    have hi6 : i < 6 := by
      rw [← hGr, row_length hwG hr6] at hi1
      exact hi1
    have := h r hr6 i hi6
    unfold cellg at this
    rw [hGr, hCr] at this
    rw [← List.getD_eq_getElem _ 0 hi1, ← List.getD_eq_getElem _ 0 hi2]
    exact this

/-! ### Soundness of the search: success states are good completions -/

theorem cellg_set_self_wf {g : Grid} (hwf : Wf g) {r c : Nat} (hr : r < 6) (hc : c < 6)
    (v : Nat) : cellg (setCell g r c v) r c = v :=
  cellg_setCell_self g r c v (by rw [hwf.1]; exact hr)
    (by rw [row_length hwf hr]; exact hc)

theorem good_step {clues : Clues} {p : Puzzle} {row col num : Nat} {C : Grid}
    (hr : row < 6) (hc : col < 6) (h0 : cellg p.grid row col = 0)
    (hwf : Wf p.grid)
    (hv : is_valid_move p row col num true = true)
    (hgood : GoodCompletion clues (setCell p.grid row col num) C) :
    GoodCompletion clues p.grid C := by
  obtain ⟨hwC, hext, hfill, hnew, hcvc⟩ := hgood
  obtain ⟨h1, h2⟩ := is_valid_move_num_range hv
  have hnum0 : num ≠ 0 := by omega
  have hself : cellg (setCell p.grid row col num) row col = num :=
    cellg_set_self_wf hwf hr hc num
  have hconf := (conflict_exists_false_iff p.grid row col num).mp
    (is_valid_move_conflict_false hv)
  refine ⟨hwC, ?_, hfill, ?_, hcvc⟩
  · intro r hr6 c hc6 hne
    by_cases heq : r = row ∧ c = col
    · obtain ⟨rfl, rfl⟩ := heq
      exact absurd h0 hne
    · have hne2 : r ≠ row ∨ c ≠ col := by tauto
      have hcell : cellg (setCell p.grid row col num) r c = cellg p.grid r c :=
        cellg_setCell_ne p.grid row col num r c hne2
      rw [← hcell]
      exact hext r hr6 c hc6 (by rw [hcell]; exact hne)
  · intro r hr6 c hc6 h0rc
    by_cases heq : r = row ∧ c = col
    · obtain ⟨rfl, rfl⟩ := heq
      have hCnum : cellg C r c = num := by
        rw [hext r hr6 c hc6 (by rw [hself]; exact hnum0), hself]
      refine ⟨by rw [hCnum]; exact h1, by rw [hCnum]; exact h2, ?_, ?_⟩
      · intro i hi6 hic
        rw [hCnum]
        by_cases hGi : cellg p.grid r i = 0
        · have hG'i : cellg (setCell p.grid r c num) r i = 0 := by
            rw [cellg_setCell_ne p.grid r c num r i (Or.inr hic)]
            exact hGi
          obtain ⟨_, _, hrowu, _⟩ := hnew r hr6 i hi6 hG'i
          exact fun he => hrowu c hc6 (fun hci => hic hci.symm) (by rw [hCnum, he])
        · have hG'i : cellg (setCell p.grid r c num) r i = cellg p.grid r i :=
            cellg_setCell_ne p.grid r c num r i (Or.inr hic)
          rw [hext r hr6 i hi6 (by rw [hG'i]; exact hGi), hG'i]
          exact (hconf i hi6).1 hic
      · intro i hi6 hir
        rw [hCnum]
        by_cases hGi : cellg p.grid i c = 0
        · have hG'i : cellg (setCell p.grid r c num) i c = 0 := by
            rw [cellg_setCell_ne p.grid r c num i c (Or.inl hir)]
            exact hGi
          obtain ⟨_, _, _, hcolu⟩ := hnew i hi6 c hc6 hG'i
          exact fun he => hcolu r hr6 (fun hri => hir hri.symm) (by rw [hCnum, he])
        · have hG'i : cellg (setCell p.grid r c num) i c = cellg p.grid i c :=
            cellg_setCell_ne p.grid r c num i c (Or.inl hir)
          rw [hext i hi6 c hc6 (by rw [hG'i]; exact hGi), hG'i]
          exact (hconf i hi6).2 hir
    · have hne2 : r ≠ row ∨ c ≠ col := by tauto
      have hG' : cellg (setCell p.grid row col num) r c = 0 := by
        rw [cellg_setCell_ne p.grid row col num r c hne2]
        exact h0rc
      exact hnew r hr6 c hc6 hG'

theorem solveNums_sound (recur : Puzzle → Bool × Puzzle)
    (hrecS : ∀ q s, Wf q.grid → recur q = (true, s) →
      GoodCompletion q.clues q.grid s.grid ∧ s.clues = q.clues)
    (hrecR : ∀ q, (recur q).1 = false → (recur q).2 = q)
    (row col : Nat) (hr : row < 6) (hc : col < 6) :
    ∀ (nums : List Nat) (p s : Puzzle), Wf p.grid → cellg p.grid row col = 0 →
      solveNums recur p row col nums = (true, s) →
      GoodCompletion p.clues p.grid s.grid ∧ s.clues = p.clues := by
  intro nums
  induction nums with
  | nil =>
    intro p s _ _ h
    exact absurd h (by simp [solveNums])
  | cons num rest ih =>
    intro p s hwf h0 hsn
    simp only [solveNums] at hsn
    by_cases hv : is_valid_move p row col num true = true
    · rw [if_pos hv] at hsn
      rcases hq : recur (setPuzzle p row col num) with ⟨b, q⟩
      rw [hq] at hsn
      cases b
      · have hq2 : q = setPuzzle p row col num := by
          have := hrecR (setPuzzle p row col num)
          rw [hq] at this
          exact this rfl
        simp only at hsn
        rw [hq2, setPuzzle_restore p row col num h0] at hsn
        exact ih p s hwf h0 hsn
      · simp only at hsn
        have hqs : s = q := (congrArg Prod.snd hsn).symm
        rw [hqs]
        have hwf' : Wf (setPuzzle p row col num).grid := Wf_setCell row col num hwf
        obtain ⟨hgood, hclues⟩ := hrecS (setPuzzle p row col num) q hwf' hq
        exact ⟨good_step hr hc h0 hwf hv hgood, hclues⟩
    · rw [if_neg hv] at hsn
      exact ih p s hwf h0 hsn

theorem solveGen_sound (sel : Puzzle → Option (Nat × Nat))
    (hsel : ∀ p pos, sel p = some pos →
      pos.1 < 6 ∧ pos.2 < 6 ∧ cellg p.grid pos.1 pos.2 = 0) :
    ∀ (fuel : Nat) (p s : Puzzle), Wf p.grid → solveGen sel fuel p = (true, s) →
      GoodCompletion p.clues p.grid s.grid ∧ s.clues = p.clues := by
  intro fuel
  induction fuel with
  | zero =>
    intro p s _ h
    exact absurd h (by simp [solveGen])
  | succ fuel ih =>
    intro p s hwf hsolve
    simp only [solveGen] at hsolve
    by_cases hw : check_win p = true
    · rw [if_pos hw] at hsolve
      obtain rfl : p = s := congrArg Prod.snd hsolve
      obtain ⟨hnz, hcvc⟩ := check_win_parts hw
      have hfill := filled_of_no_zero hwf hnz
      exact ⟨⟨hwf, fun r hr c hc _ => rfl, hfill,
        fun r hr c hc h0 => absurd h0 (hfill r hr c hc), hcvc⟩, rfl⟩
    · rw [if_neg hw] at hsolve
      rcases hselp : sel p with _ | ⟨row, col⟩
      · rw [hselp] at hsolve
        exact absurd hsolve (by simp)
      · rw [hselp] at hsolve
        obtain ⟨hr, hc, h0⟩ := hsel p (row, col) hselp
        exact solveNums_sound (solveGen sel fuel) ih
          (fun q => solveGen_restore sel (fun a b hab => (hsel a b hab).2.2) fuel q)
          row col hr hc _ p s hwf h0 hsolve

/-! ### Completeness of the search: a good completion is found -/

theorem good_value_valid {clues : Clues} {p : Puzzle} {C : Grid} (hwf : Wf p.grid)
    (hgood : GoodCompletion clues p.grid C) {r c : Nat} (hr : r < 6) (hc : c < 6)
    (h0 : cellg p.grid r c = 0) :
    is_valid_move p r c (cellg C r c) false = true := by
  obtain ⟨hwC, hext, hfill, hnew, hcvc⟩ := hgood
  obtain ⟨h1, h2, hrowu, hcolu⟩ := hnew r hr c hc h0
  refine is_valid_move_intro p r c _ h1 h2 ?_
  rw [conflict_exists_false_iff]
  intro i hi
  constructor
  · intro hic he
    by_cases hgz : cellg p.grid r i = 0
    · rw [hgz] at he
      omega
    · exact hrowu i hi hic (by rw [hext r hr i hi hgz, he])
  · intro hir he
    by_cases hgz : cellg p.grid i c = 0
    · rw [hgz] at he
      omega
    · exact hcolu i hi hir (by rw [hext i hi c hc hgz, he])

theorem good_after_set {clues : Clues} {p : Puzzle} {C : Grid} (hwf : Wf p.grid)
    (hgood : GoodCompletion clues p.grid C) {r c : Nat} (hr : r < 6) (hc : c < 6)
    (h0 : cellg p.grid r c = 0) :
    GoodCompletion clues (setCell p.grid r c (cellg C r c)) C := by
  obtain ⟨hwC, hext, hfill, hnew, hcvc⟩ := hgood
  have hself : cellg (setCell p.grid r c (cellg C r c)) r c = cellg C r c :=
    cellg_set_self_wf hwf hr hc _
  refine ⟨hwC, ?_, hfill, ?_, hcvc⟩
  · intro r' hr' c' hc' hne
    by_cases heq : r' = r ∧ c' = c
    · obtain ⟨rfl, rfl⟩ := heq
      rw [hself]
    · have hne2 : r' ≠ r ∨ c' ≠ c := by tauto
      rw [cellg_setCell_ne p.grid r c _ r' c' hne2] at hne ⊢
      exact hext r' hr' c' hc' hne
  · intro r' hr' c' hc' h0'
    by_cases heq : r' = r ∧ c' = c
    · obtain ⟨rfl, rfl⟩ := heq
      rw [hself] at h0'
      exact absurd h0' (hfill r' hr' c' hc')
    · have hne2 : r' ≠ r ∨ c' ≠ c := by tauto
      rw [cellg_setCell_ne p.grid r c _ r' c' hne2] at h0'
      exact hnew r' hr' c' hc' h0'

theorem mem_range16 {v : Nat} (h1 : 1 ≤ v) (h2 : v ≤ 6) : v ∈ List.range' 1 6 := by
  have : List.range' 1 6 = [1, 2, 3, 4, 5, 6] := rfl
  rw [this]
  interval_cases v <;> simp

theorem check_win_of_good_self {p : Puzzle} {C : Grid} (hwf : Wf p.grid)
    (hgood : GoodCompletion p.clues p.grid C) (heq : p.grid = C) :
    check_win p = true := by
  obtain ⟨hwC, hext, hfill, hnew, hcvc⟩ := hgood
  refine check_win_intro ?_ ?_
  · exact no_zero_of_filled hwf (by rw [heq]; exact hfill)
  · rw [heq]
    exact hcvc

theorem empty_cell_or_eq {p : Puzzle} {C : Grid} (hwf : Wf p.grid)
    (hgood : GoodCompletion p.clues p.grid C) :
    (∃ pos ∈ positions, cellg p.grid pos.1 pos.2 = 0) ∨ p.grid = C := by
  by_cases hfp : ∀ r < 6, ∀ c < 6, cellg p.grid r c ≠ 0
  · right
    obtain ⟨hwC, hext, hfill, hnew, hcvc⟩ := hgood
    exact grid_eq_of_cells hwf hwC
      (fun r hr c hc => (hext r hr c hc (hfp r hr c hc)).symm)
  · left
    push_neg at hfp
    obtain ⟨r, hr, c, hc, h0⟩ := hfp
    exact ⟨(r, c), (mem_positions_iff (r, c)).mpr ⟨hr, hc⟩, h0⟩

theorem solveNums_complete (recur : Puzzle → Bool × Puzzle)
    (p : Puzzle) (row col : Nat)
    (hr : row < 6) (hc : col < 6) (h0 : cellg p.grid row col = 0) (hwf : Wf p.grid)
    {C : Grid} (hgood : GoodCompletion p.clues p.grid C)
    (hrecR : ∀ q, (recur q).1 = false → (recur q).2 = q)
    (hrecC : ∀ q C2, Wf q.grid → GoodCompletion q.clues q.grid C2 →
      countZeros q.grid < countZeros p.grid → (recur q).1 = true) :
    ∀ nums : List Nat, cellg C row col ∈ nums →
      (solveNums recur p row col nums).1 = true := by
  intro nums
  induction nums with
  | nil =>
    intro h
    exact absurd h (by simp)
  | cons num rest ih =>
    intro hmem
    simp only [solveNums]
    by_cases hv : is_valid_move p row col num true = true
    · rw [if_pos hv]
      rcases hq : recur (setPuzzle p row col num) with ⟨b, q⟩
      cases b
      · by_cases hnum : num = cellg C row col
        · exfalso
          have hwf' : Wf (setPuzzle p row col num).grid := Wf_setCell row col num hwf
          have hgood' : GoodCompletion (setPuzzle p row col num).clues
              (setPuzzle p row col num).grid C := by
            rw [hnum]
            exact good_after_set hwf hgood hr hc h0
          have hnum1 : 1 ≤ cellg C row col :=
            ((hgood.2.2.2.1) row hr col hc h0).1
          have hcz : countZeros (setPuzzle p row col num).grid < countZeros p.grid := by
            have hone := countZeros_setCell num (by omega) p.grid row col
              (by rw [hwf.1]; exact hr) (by rw [row_length hwf hr]; exact hc) h0
            show countZeros (setCell p.grid row col num) < countZeros p.grid
            omega
          have := hrecC _ C hwf' hgood' hcz
          rw [hq] at this
          exact absurd this (by simp)
        · have hq2 : q = setPuzzle p row col num := by
            have := hrecR (setPuzzle p row col num)
            rw [hq] at this
            exact this rfl
          simp only
          rw [hq2, setPuzzle_restore p row col num h0]
          refine ih ?_
          rcases List.mem_cons.mp hmem with he | he
          · exact absurd he.symm hnum
          · exact he
      · rfl
    · rw [if_neg hv]
      have hvv : is_valid_move p row col (cellg C row col) true = true := by
        refine is_valid_move_of_base (good_value_valid hwf hgood hr hc h0) ?_
        obtain ⟨hwC, hext', hfill, _, hcvc⟩ := good_after_set hwf hgood hr hc h0
        exact cvc_of_consistent (Wf_setCell row col _ hwf) hwC hext' hfill hcvc
      have hne : num ≠ cellg C row col := fun he => hv (he ▸ hvv)
      refine ih ?_
      rcases List.mem_cons.mp hmem with he | he
      · exact absurd he.symm hne
      · exact he

theorem solveGen_complete (sel : Puzzle → Option (Nat × Nat))
    (hselA : ∀ p pos, sel p = some pos →
      pos.1 < 6 ∧ pos.2 < 6 ∧ cellg p.grid pos.1 pos.2 = 0)
    (hselB : ∀ p C, Wf p.grid → GoodCompletion p.clues p.grid C →
      (∃ pos ∈ positions, cellg p.grid pos.1 pos.2 = 0) → sel p ≠ none) :
    ∀ (fuel : Nat) (p : Puzzle) (C : Grid), Wf p.grid →
      GoodCompletion p.clues p.grid C → countZeros p.grid < fuel →
      (solveGen sel fuel p).1 = true := by
  intro fuel
  induction fuel with
  | zero =>
    intro p C _ _ hz
    omega
  | succ fuel ih =>
    intro p C hwf hgood hfuel
    simp only [solveGen]
    by_cases hw : check_win p = true
    · rw [if_pos hw]
    · rw [if_neg hw]
      rcases empty_cell_or_eq hwf hgood with hempty | heq
      · rcases hselp : sel p with _ | ⟨row, col⟩
        · exact absurd hselp (hselB p C hwf hgood hempty)
        · obtain ⟨hr, hc, h0⟩ := hselA p (row, col) hselp
          have hv1 : 1 ≤ cellg C row col := ((hgood.2.2.2.1) row hr col hc h0).1
          have hv2 : cellg C row col ≤ 6 := ((hgood.2.2.2.1) row hr col hc h0).2.1
          refine solveNums_complete (solveGen sel fuel) p row col hr hc h0 hwf hgood
            (fun q => solveGen_restore sel (fun a b hab => (hselA a b hab).2.2) fuel q)
            (fun q C2 hwfq hgoodq hlt => ih q C2 hwfq hgoodq (by omega))
            (List.range' 1 GRID_SIZE) (mem_range16 hv1 hv2)
      · exact absurd (check_win_of_good_self hwf hgood heq) hw

/-! ### The two selectors satisfy the search lemmas' requirements -/

theorem get_mrv_selA : ∀ (p : Puzzle) (pos : Nat × Nat), get_mrv p = some pos →
    pos.1 < 6 ∧ pos.2 < 6 ∧ cellg p.grid pos.1 pos.2 = 0 :=
  fun p pos h => get_mrv_some_props p pos h

theorem get_mrv_selB : ∀ (p : Puzzle) (C : Grid), Wf p.grid →
    GoodCompletion p.clues p.grid C →
    (∃ pos ∈ positions, cellg p.grid pos.1 pos.2 = 0) → get_mrv p ≠ none := by
  intro p C hwf hgood hex hnone
  rw [get_mrv_none_iff] at hnone
  obtain ⟨pos, hmem, h0⟩ := hex
  obtain ⟨h1, h2⟩ := (mem_positions_iff pos).mp hmem
  refine hnone pos hmem ⟨h0, ?_⟩
  unfold valid_count
  rw [List.countP_pos_iff]
  have hb := (hgood.2.2.2.1) pos.1 h1 pos.2 h2 h0
  exact ⟨cellg C pos.1 pos.2, mem_range16 hb.1 hb.2.1,
    good_value_valid hwf hgood h1 h2 h0⟩

theorem first_empty_selA : ∀ (p : Puzzle) (pos : Nat × Nat), first_empty p = some pos →
    pos.1 < 6 ∧ pos.2 < 6 ∧ cellg p.grid pos.1 pos.2 = 0 := by
  intro p pos h
  have hmem := List.mem_of_find?_eq_some h
  have hpred := List.find?_some h
  obtain ⟨h1, h2⟩ := (mem_positions_iff pos).mp hmem
  exact ⟨h1, h2, of_decide_eq_true hpred⟩

theorem first_empty_selB : ∀ (p : Puzzle) (C : Grid), Wf p.grid →
    GoodCompletion p.clues p.grid C →
    (∃ pos ∈ positions, cellg p.grid pos.1 pos.2 = 0) → first_empty p ≠ none := by
  intro p C _ _ hex hnone
  rw [first_empty, List.find?_eq_none] at hnone
  obtain ⟨pos, hmem, h0⟩ := hex
  exact hnone pos hmem (by simp [h0])

/-! ### Claim C9 -/

/-- C9: with `solveSimple` modelled from the spec (same backtracking search,
first-empty selector), `solve` and `solveSimple` succeed on exactly the same
well-formed states: the heuristic never changes whether a solution is
found. -/
theorem C9_solver_equivalence (p : Puzzle) (hwf : Wf p.grid) :
    ((solve p).1 = true ↔ (solve_simple p).1 = true) := by
  constructor
  · intro h
    have hpair : solveGen get_mrv (countZeros p.grid + 1) p = (true, (solve p).2) := by
      have hx := Prod.mk.eta (p := solve p)
      rw [h] at hx
      exact hx.symm
    obtain ⟨hgood, _⟩ :=
      solveGen_sound get_mrv get_mrv_selA (countZeros p.grid + 1) p (solve p).2 hwf hpair
    exact solveGen_complete first_empty first_empty_selA first_empty_selB
      (countZeros p.grid + 1) p (solve p).2.grid hwf hgood (by omega)
  · intro h
    have hpair : solveGen first_empty (countZeros p.grid + 1) p
        = (true, (solve_simple p).2) := by
      have hx := Prod.mk.eta (p := solve_simple p)
      rw [h] at hx
      exact hx.symm
    obtain ⟨hgood, _⟩ :=
      solveGen_sound first_empty first_empty_selA (countZeros p.grid + 1) p
        (solve_simple p).2 hwf hpair
    exact solveGen_complete get_mrv get_mrv_selA get_mrv_selB
      (countZeros p.grid + 1) p (solve_simple p).2.grid hwf hgood (by omega)

/-- C9 witness: the equivalence at the freshly constructed puzzle. -/
theorem C9_witness :
    (solve initPuzzle).1 = true ↔ (solve_simple initPuzzle).1 = true :=
  C9_solver_equivalence initPuzzle (by decide)

/-! ### The engine invariant and reachable states -/

theorem setCell_oob_row {g : Grid} (hwf : Wf g) {r : Nat} (hr : ¬r < 6) (c v : Nat) :
    setCell g r c v = g := by
  unfold setCell
  exact set_of_le _ _ _ (by rw [hwf.1]; omega)

theorem setCell_oob_col {g : Grid} (hwf : Wf g) {r : Nat} (hr : r < 6) {c : Nat}
    (hc : ¬c < 6) (v : Nat) : setCell g r c v = g := by
  unfold setCell
  have h1 : (g.getD r []).set c v = g.getD r [] :=
    set_of_le _ _ _ (by rw [row_length hwf hr]; omega)
  rw [h1, set_getD_self]

theorem Inv_of_grid_eq {p q : Puzzle} (h : q.grid = p.grid) (hinv : Inv p) : Inv q := by
  obtain ⟨h1, h2, h3⟩ := hinv
  exact ⟨h ▸ h1, h ▸ h2, h ▸ h3⟩

theorem getD_replicate {α} (d a : α) :
    ∀ (n i : Nat), (List.replicate n a).getD i d = if i < n then a else d
  | 0, i => by simp
  | n + 1, 0 => by simp
  | n + 1, i + 1 => by
    simpa [List.replicate, Nat.succ_lt_succ_iff] using getD_replicate d a n i

theorem cellg_init (r c : Nat) : cellg initPuzzle.grid r c = 0 := by
  show cellg (List.replicate GRID_SIZE (List.replicate GRID_SIZE 0)) r c = 0
  unfold cellg
  rw [getD_replicate]
  split
  · rw [getD_replicate]
    split <;> rfl
  · rfl

theorem Inv_init : Inv initPuzzle :=
  ⟨by decide, fun r _ c _ => by rw [cellg_init]; omega,
   fun r _ c _ hne => absurd (cellg_init r c) hne⟩

theorem Inv_setPuzzle_valid {p : Puzzle} {row col num : Nat} (hinv : Inv p)
    (hr : row < 6) (hc : col < 6)
    (hv : is_valid_move p row col num false = true) :
    Inv (setPuzzle p row col num) := by
  obtain ⟨hwf, hvals, hnd⟩ := hinv
  obtain ⟨h1, h2⟩ := is_valid_move_num_range hv
  have hconf := (conflict_exists_false_iff p.grid row col num).mp
    (is_valid_move_conflict_false hv)
  have hself : cellg (setCell p.grid row col num) row col = num :=
    cellg_set_self_wf hwf hr hc num
  refine ⟨Wf_setCell row col num hwf, ?_, ?_⟩
  · show ValsOk (setCell p.grid row col num)
    intro r hr6 c hc6
    by_cases heq : r = row ∧ c = col
    · obtain ⟨rfl, rfl⟩ := heq
      rw [hself]
      exact h2
    · rw [cellg_setCell_ne p.grid row col num r c (by tauto)]
      exact hvals r hr6 c hc6
  · show NoDups (setCell p.grid row col num)
    intro r hr6 c hc6 hne
    by_cases heq : r = row ∧ c = col
    · obtain ⟨rfl, rfl⟩ := heq
      constructor
      · intro i hi6 hic
        rw [hself, cellg_setCell_ne p.grid r c num r i (Or.inr hic)]
        exact fun he => (hconf i hi6).1 hic he
      · intro i hi6 hir
        rw [hself, cellg_setCell_ne p.grid r c num i c (Or.inl hir)]
        exact fun he => (hconf i hi6).2 hir he
    · have hne2 : r ≠ row ∨ c ≠ col := by tauto
      have hcell : cellg (setCell p.grid row col num) r c = cellg p.grid r c :=
        cellg_setCell_ne p.grid row col num r c hne2
      rw [hcell] at hne
      obtain ⟨hrowcl, hcolcl⟩ := hnd r hr6 c hc6 hne
      constructor
      · intro i hi6 hic
        rw [hcell]
        by_cases hset : r = row ∧ i = col
        · obtain ⟨rfl, rfl⟩ := hset
          rw [hself]
          have hccol : c ≠ i := by tauto
          exact fun he => (hconf c hc6).1 hccol he.symm
        · rw [cellg_setCell_ne p.grid row col num r i (by tauto)]
          exact hrowcl i hi6 hic
      · intro i hi6 hir
        rw [hcell]
        by_cases hset : i = row ∧ c = col
        · obtain ⟨rfl, rfl⟩ := hset
          rw [hself]
          have hrrow : r ≠ i := by tauto
          exact fun he => (hconf r hr6).2 hrrow he.symm
        · rw [cellg_setCell_ne p.grid row col num i c (by tauto)]
          exact hcolcl i hi6 hir

theorem Inv_setPuzzle_zero {p : Puzzle} (hinv : Inv p) (row col : Nat) :
    Inv (setPuzzle p row col 0) := by
  obtain ⟨hwf, hvals, hnd⟩ := hinv
  by_cases hr : row < 6
  · by_cases hc : col < 6
    · have hself : cellg (setCell p.grid row col 0) row col = 0 :=
        cellg_set_self_wf hwf hr hc 0
      refine ⟨Wf_setCell row col 0 hwf, ?_, ?_⟩
      · show ValsOk (setCell p.grid row col 0)
        intro r hr6 c hc6
        by_cases heq : r = row ∧ c = col
        · obtain ⟨rfl, rfl⟩ := heq
          rw [hself]
          omega
        · rw [cellg_setCell_ne p.grid row col 0 r c (by tauto)]
          exact hvals r hr6 c hc6
      · show NoDups (setCell p.grid row col 0)
        intro r hr6 c hc6 hne
        by_cases heq : r = row ∧ c = col
        · obtain ⟨rfl, rfl⟩ := heq
          exact absurd hself hne
        · have hne2 : r ≠ row ∨ c ≠ col := by tauto
          have hcell : cellg (setCell p.grid row col 0) r c = cellg p.grid r c :=
            cellg_setCell_ne p.grid row col 0 r c hne2
          rw [hcell] at hne
          obtain ⟨hrowcl, hcolcl⟩ := hnd r hr6 c hc6 hne
          constructor
          · intro i hi6 hic
            rw [hcell]
            by_cases hset : r = row ∧ i = col
            · obtain ⟨rfl, rfl⟩ := hset
              rw [hself]
              exact fun he => hne he.symm
            · rw [cellg_setCell_ne p.grid row col 0 r i (by tauto)]
              exact hrowcl i hi6 hic
          · intro i hi6 hir
            rw [hcell]
            by_cases hset : i = row ∧ c = col
            · obtain ⟨rfl, rfl⟩ := hset
              rw [hself]
              exact fun he => hne he.symm
            · rw [cellg_setCell_ne p.grid row col 0 i c (by tauto)]
              exact hcolcl i hi6 hir
    · exact Inv_of_grid_eq (setCell_oob_col hwf hr hc 0) ⟨hwf, hvals, hnd⟩
  · exact Inv_of_grid_eq (setCell_oob_row hwf hr col 0) ⟨hwf, hvals, hnd⟩

theorem Inv_setPuzzle_of_valid {p : Puzzle} {row col num : Nat} (hinv : Inv p)
    (hv : is_valid_move p row col num false = true) :
    Inv (setPuzzle p row col num) := by
  by_cases hr : row < 6
  · by_cases hc : col < 6
    · exact Inv_setPuzzle_valid hinv hr hc hv
    · exact Inv_of_grid_eq (setCell_oob_col hinv.1 hr hc num) hinv
  · exact Inv_of_grid_eq (setCell_oob_row hinv.1 hr col num) hinv

theorem Inv_make_move (p : Puzzle) (row col num : Nat) (hinv : Inv p) :
    Inv (make_move p row col num).2 := by
  unfold make_move
  by_cases hv : is_valid_move p row col num false = true
  · rw [if_pos hv]
    exact Inv_setPuzzle_of_valid hinv hv
  · rw [if_neg hv]
    exact hinv

theorem solveNums_inv (recur : Puzzle → Bool × Puzzle)
    (hrecI : ∀ q, Inv q → Inv (recur q).2) (row col : Nat) :
    ∀ (nums : List Nat) (p : Puzzle), Inv p →
      Inv (solveNums recur p row col nums).2 := by
  intro nums
  induction nums with
  | nil => intro p hinv; exact hinv
  | cons num rest ih =>
    intro p hinv
    simp only [solveNums]
    by_cases hv : is_valid_move p row col num true = true
    · rw [if_pos hv]
      rcases hq : recur (setPuzzle p row col num) with ⟨b, q⟩
      have hinv1 : Inv (setPuzzle p row col num) :=
        Inv_setPuzzle_of_valid hinv (is_valid_move_base_of hv)
      have hinvq : Inv q := by
        have := hrecI _ hinv1
        rw [hq] at this
        exact this
      cases b
      · exact ih _ (Inv_setPuzzle_zero hinvq row col)
      · exact hinvq
    · rw [if_neg hv]
      exact ih p hinv

theorem solveGen_inv (sel : Puzzle → Option (Nat × Nat)) :
    ∀ (fuel : Nat) (p : Puzzle), Inv p → Inv (solveGen sel fuel p).2 := by
  intro fuel
  induction fuel with
  | zero => intro p hinv; exact hinv
  | succ fuel ih =>
    intro p hinv
    simp only [solveGen]
    by_cases hw : check_win p = true
    · rw [if_pos hw]
      exact hinv
    · rw [if_neg hw]
      rcases hselp : sel p with _ | ⟨row, col⟩
      · exact hinv
      · exact solveNums_inv (solveGen sel fuel) ih row col _ p hinv

theorem set_clue_grid (p : Puzzle) (d : Dir) (idx num : Nat) :
    (set_clue p d idx num).grid = p.grid := by
  cases d <;> rfl

theorem Reachable_Inv {p : Puzzle} (h : Reachable p) : Inv p := by
  induction h with
  | init => exact Inv_init
  | clue_step d idx num _ ih => exact Inv_of_grid_eq (set_clue_grid _ d idx num) ih
  | move_step row col num _ ih => exact Inv_make_move _ row col num ih
  | clear_step row col _ ih => exact Inv_setPuzzle_zero ih row col
  | solve_step _ ih => exact solveGen_inv get_mrv _ _ ih
  | simple_step _ ih => exact solveGen_inv first_empty _ _ ih

/-! ### Permutation structure of solved lines -/

theorem perm_of_line (L : List Nat) (hlen : L.length = 6)
    (hvals : ∀ i < 6, 1 ≤ L.getD i 0 ∧ L.getD i 0 ≤ 6)
    (hdist : ∀ i < 6, ∀ j < 6, i ≠ j → L.getD i 0 ≠ L.getD j 0) :
    L.Perm (List.range' 1 6) := by
  have hnodup : L.Nodup := by
    rw [List.nodup_iff_getElem?_ne_getElem?]
    intro i j hij hj
    rw [List.getElem?_eq_getElem (by omega), List.getElem?_eq_getElem hj]
    intro he
    rw [Option.some_inj] at he
    refine hdist i (by omega) j (by omega) (by omega) ?_
    rw [List.getD_eq_getElem _ _ (by omega), List.getD_eq_getElem _ _ hj]
    exact he
  have hr' : (List.range' 1 6).Nodup := by decide
  have hsub : L.toFinset ⊆ (List.range' 1 6).toFinset := by
    intro v hv
    rw [List.mem_toFinset] at hv ⊢
    obtain ⟨i, hi, he⟩ := List.mem_iff_getElem.mp hv
    have hi6 : i < 6 := by omega
    have hgd : L.getD i 0 = v := by
      rw [List.getD_eq_getElem _ _ hi]
      exact he
    obtain ⟨h1, h2⟩ := hvals i hi6
    rw [hgd] at h1 h2
    exact mem_range16 h1 h2
  have hcard : (List.range' 1 6).toFinset.card ≤ L.toFinset.card := by
    rw [List.toFinset_card_of_nodup hnodup, List.toFinset_card_of_nodup hr', hlen]
    rfl
  exact List.perm_of_nodup_nodup_toFinset_eq hnodup hr'
    (Finset.eq_of_subset_of_card_le hsub hcard)

theorem col_complete_of_filled {C : Grid} (hfill : Filled C) {c : Nat} (hc : c < 6) :
    (colOf C c).contains 0 = false := by
  rw [not_contains_zero_iff]
  intro i hi
  rw [colOf_length] at hi
  rw [colOf_getD C c i hi]
  exact hfill i hi c hc

theorem row_complete_of_filled {C : Grid} (hwC : Wf C) (hfill : Filled C) {r : Nat}
    (hr : r < 6) : (C.getD r []).contains 0 = false := by
  rw [not_contains_zero_iff]
  intro i hi
  rw [row_length hwC hr] at hi
  exact hfill r hr i hi

/-! ### Claim C2 -/

/-- C2: on every state reachable through the engine's operation surface
(construction, clue setup, `make_move`, `clear_cell` and the solvers — the
grid is owned by the engine per the data-model contract), a true return from
`solve()` leaves a completely filled grid in which every row and every column
is a permutation of `{1..6}` and every directional clue is matched exactly by
the corresponding visibility count. -/
theorem C2_solve_round_trip (p : Puzzle) (hreach : Reachable p)
    (hsucc : (solve p).1 = true) :
    Filled (solve p).2.grid ∧
    (∀ r < 6, ((solve p).2.grid.getD r []).Perm (List.range' 1 6)) ∧
    (∀ c < 6, (colOf (solve p).2.grid c).Perm (List.range' 1 6)) ∧
    (∀ c < 6,
      check_visibility_from_direction (colOf (solve p).2.grid c)
        = ((solve p).2.clues.top.getD c 0 : Int) ∧
      check_visibility_from_direction (colOf (solve p).2.grid c).reverse
        = ((solve p).2.clues.bottom.getD c 0 : Int)) ∧
    (∀ r < 6,
      check_visibility_from_direction ((solve p).2.grid.getD r [])
        = ((solve p).2.clues.left.getD r 0 : Int) ∧
      check_visibility_from_direction ((solve p).2.grid.getD r []).reverse
        = ((solve p).2.clues.right.getD r 0 : Int)) := by
  obtain ⟨hwf, hvals, hnd⟩ := Reachable_Inv hreach
  have hpair : solveGen get_mrv (countZeros p.grid + 1) p = (true, (solve p).2) := by
    have hx := Prod.mk.eta (p := solve p)
    rw [hsucc] at hx
    exact hx.symm
  obtain ⟨hgood, hclues⟩ :=
    solveGen_sound get_mrv get_mrv_selA (countZeros p.grid + 1) p (solve p).2 hwf hpair
  obtain ⟨hwC, hext, hfill, hnew, hcvc⟩ := hgood
  have hvalsC : ∀ r < 6, ∀ c < 6,
      1 ≤ cellg (solve p).2.grid r c ∧ cellg (solve p).2.grid r c ≤ 6 := by
    intro r hr6 c hc6
    by_cases h0 : cellg p.grid r c = 0
    · have hb := hnew r hr6 c hc6 h0
      exact ⟨hb.1, hb.2.1⟩
    · have he := hext r hr6 c hc6 h0
      rw [he]
      exact ⟨Nat.one_le_iff_ne_zero.mpr h0, hvals r hr6 c hc6⟩
  have hdistRow : ∀ r < 6, ∀ c1 < 6, ∀ c2 < 6, c1 ≠ c2 →
      cellg (solve p).2.grid r c1 ≠ cellg (solve p).2.grid r c2 := by
    intro r hr6 c1 hc1 c2 hc2 hne
    by_cases h01 : cellg p.grid r c1 = 0
    · have hcl := (hnew r hr6 c1 hc1 h01).2.2.1 c2 hc2 (fun h => hne h.symm)
      exact fun he => hcl he.symm
    · by_cases h02 : cellg p.grid r c2 = 0
      · exact (hnew r hr6 c2 hc2 h02).2.2.1 c1 hc1 hne
      · rw [hext r hr6 c1 hc1 h01, hext r hr6 c2 hc2 h02]
        have hcl := (hnd r hr6 c1 hc1 h01).1 c2 hc2 (fun h => hne h.symm)
        exact fun he => hcl he.symm
  have hdistCol : ∀ c < 6, ∀ r1 < 6, ∀ r2 < 6, r1 ≠ r2 →
      cellg (solve p).2.grid r1 c ≠ cellg (solve p).2.grid r2 c := by
    intro c hc6 r1 hr1 r2 hr2 hne
    by_cases h01 : cellg p.grid r1 c = 0
    · have hcl := (hnew r1 hr1 c hc6 h01).2.2.2 r2 hr2 (fun h => hne h.symm)
      exact fun he => hcl he.symm
    · by_cases h02 : cellg p.grid r2 c = 0
      · exact (hnew r2 hr2 c hc6 h02).2.2.2 r1 hr1 hne
      · rw [hext r1 hr1 c hc6 h01, hext r2 hr2 c hc6 h02]
        have hcl := (hnd r1 hr1 c hc6 h01).2 r2 hr2 (fun h => hne h.symm)
        exact fun he => hcl he.symm
  have hcvc' := (cvc_true_iff p.clues (solve p).2.grid).mp hcvc
  refine ⟨hfill, ?_, ?_, ?_, ?_⟩
  · intro r hr6
    exact perm_of_line _ (row_length hwC hr6)
      (fun i hi => hvalsC r hr6 i hi)
      (fun i hi j hj hne => hdistRow r hr6 i hi j hj hne)
  · intro c hc6
    refine perm_of_line _ (colOf_length _ _) ?_ ?_
    · intro i hi
      rw [colOf_getD _ c i hi]
      exact hvalsC i hi c hc6
    · intro i hi j hj hne
      rw [colOf_getD _ c i hi, colOf_getD _ c j hj]
      exact hdistCol c hc6 i hi j hj hne
  · intro c hc6
    rw [hclues]
    exact hcvc'.1 c hc6 (col_complete_of_filled hfill hc6)
  · intro r hr6
    rw [hclues]
    exact hcvc'.2 r hr6 (row_complete_of_filled hwC hfill hr6)

theorem Reachable_applyMoves (ms : List (Nat × Nat × Nat)) :
    ∀ p, Reachable p → Reachable (applyMoves p ms) := by
  induction ms with
  | nil => intro p h; exact h
  | cons m rest ih =>
    intro p h
    exact ih _ (Reachable.move_step m.1 m.2.1 m.2.2 h)

set_option maxRecDepth 100000 in
/-- C2 witness: the default puzzle with a full solution entered through
`make_move`; `solve` returns true and the conclusion holds there. -/
theorem C2_witness :
    Reachable solvedPuzzle ∧ (solve solvedPuzzle).1 = true ∧
    (∀ r < 6, ((solve solvedPuzzle).2.grid.getD r []).Perm (List.range' 1 6)) ∧
    (∀ c < 6, (colOf (solve solvedPuzzle).2.grid c).Perm (List.range' 1 6)) :=
  have hreach : Reachable solvedPuzzle :=
    Reachable_applyMoves solMoves initPuzzle Reachable.init
  have hsucc : (solve solvedPuzzle).1 = true := by decide
  have h := C2_solve_round_trip solvedPuzzle hreach hsucc
  ⟨hreach, hsucc, h.2.1, h.2.2.1⟩

/-! ### The raising embedding agrees with the total one on well-formed states -/

theorem bind_ok {ε α β} (a : α) (f : α → Except ε β) :
    (Except.ok a >>= f : Except ε β) = f a := rfl

theorem withState_ok (p : Puzzle) {α} (a : α) : withState p (.ok a) = .ok a := rfl

theorem getRowE_ok {g : Grid} (hwf : Wf g) {r : Nat} (hr : r < 6) :
    getRowE g r = .ok (g.getD r []) := by
  unfold getRowE
  rw [if_pos (by rw [hwf.1]; exact hr)]

theorem getCellE_ok {g : Grid} (hwf : Wf g) {r c : Nat} (hr : r < 6) (hc : c < 6) :
    getCellE g r c = .ok (cellg g r c) := by
  unfold getCellE
  rw [getRowE_ok hwf hr, bind_ok]
  rw [if_pos (by rw [row_length hwf hr]; exact hc)]
  rfl

theorem setCellE_ok {g : Grid} (hwf : Wf g) {r c : Nat} (hr : r < 6) (hc : c < 6)
    (v : Nat) : setCellE g r c v = .ok (setCell g r c v) := by
  unfold setCellE
  rw [if_pos (by rw [hwf.1]; exact hr), if_pos (by rw [row_length hwf hr]; exact hc)]
  rfl

theorem pure_bind_ok {ε α β} (a : α) (f : α → Except ε β) :
    ((pure a : Except ε α) >>= f) = f a := rfl

theorem disj1E_ok {g : Grid} (hwf : Wf g) {row i : Nat} (hrow : row < 6) (hi : i < 6)
    (num col : Nat) :
    disj1E g row num i col
      = .ok (decide (i ≠ col) && decide (cellg g row i = num)) := by
  unfold disj1E
  by_cases hic : i = col
  · rw [if_pos hic]
    have hb : (decide (i ≠ col) && decide (cellg g row i = num)) = false := by
      simp [hic]
    rw [hb]
    rfl
  · rw [if_neg hic, getCellE_ok hwf hrow hi, bind_ok]
    have hb : (decide (i ≠ col) && decide (cellg g row i = num))
        = decide (cellg g row i = num) := by
      simp [hic]
    rw [hb]
    rfl

theorem disj2E_ok {g : Grid} (hwf : Wf g) {col i : Nat} (hcol : col < 6) (hi : i < 6)
    (num row : Nat) :
    disj2E g col num i row
      = .ok (decide (i ≠ row) && decide (cellg g i col = num)) := by
  unfold disj2E
  by_cases hir : i = row
  · rw [if_pos hir]
    have hb : (decide (i ≠ row) && decide (cellg g i col = num)) = false := by
      simp [hir]
    rw [hb]
    rfl
  · rw [if_neg hir, getCellE_ok hwf hi hcol, bind_ok]
    have hb : (decide (i ≠ row) && decide (cellg g i col = num))
        = decide (cellg g i col = num) := by
      simp [hir]
    rw [hb]
    rfl

theorem conflict_loopE_ok {g : Grid} (hwf : Wf g) {row col : Nat}
    (hrow : row < 6) (hcol : col < 6) (num : Nat) :
    ∀ l : List Nat, (∀ i ∈ l, i < 6) →
      conflict_loopE g row col num l
        = .ok (l.any fun i =>
            (decide (i ≠ col) && decide (cellg g row i = num)) ||
            (decide (i ≠ row) && decide (cellg g i col = num))) := by
  intro l
  induction l with
  | nil => intro _; rfl
  | cons i rest ih =>
    intro hmem
    have hi : i < 6 := hmem i (List.mem_cons_self i rest)
    have hrest : ∀ j ∈ rest, j < 6 := fun j hj => hmem j (List.mem_cons_of_mem _ hj)
    simp only [conflict_loopE]
    rw [disj1E_ok hwf hrow hi num col, bind_ok, List.any_cons]
    rcases h1 : (decide (i ≠ col) && decide (cellg g row i = num)) with _ | _
    · rw [if_neg (by simp), disj2E_ok hwf hcol hi num row, bind_ok]
      rcases h2 : (decide (i ≠ row) && decide (cellg g i col = num)) with _ | _
      · rw [if_neg (by simp), ih hrest]
        simp only [Bool.or_self, Bool.false_or]
      · rw [if_pos rfl]
        simp only [Bool.or_true, Bool.false_or, Bool.true_or]
        rfl
    · rw [if_pos rfl, pure_bind_ok, if_pos rfl]
      simp only [Bool.true_or]
      rfl

theorem conflict_loopE_eq {g : Grid} (hwf : Wf g) {row col : Nat}
    (hrow : row < 6) (hcol : col < 6) (num : Nat) :
    conflict_loopE g row col num (List.range GRID_SIZE)
      = .ok (conflict_exists g row col num) := by
  rw [conflict_loopE_ok hwf hrow hcol num (List.range GRID_SIZE)
    (fun i hi => List.mem_range.mp hi)]
  rfl

theorem col_loopE_ok {g : Grid} (hwf : Wf g) {c : Nat} (hc : c < 6) :
    ∀ l : List Nat, (∀ r ∈ l, r < 6) →
      col_loopE g c l = .ok (l.map fun r => cellg g r c) := by
  intro l
  induction l with
  | nil => intro _; rfl
  | cons r rest ih =>
    intro hmem
    simp only [col_loopE]
    rw [getCellE_ok hwf (hmem r (List.mem_cons_self r rest)) hc, bind_ok,
      ih (fun j hj => hmem j (List.mem_cons_of_mem _ hj)), bind_ok]
    rfl

theorem clueAtE_ok {l : List Nat} (hl : l.length = 6) {i : Nat} (hi : i < 6) :
    clueAtE l i = .ok (l.getD i 0) := by
  unfold clueAtE
  rw [if_pos (by omega)]
  rfl

theorem cvc_colsE_ok {clues : Clues} {g : Grid} (hwP : Wf g)
    (htop : clues.top.length = 6) (hbot : clues.bottom.length = 6) :
    ∀ l : List Nat, (∀ i ∈ l, i < 6) →
      cvc_colsE clues g l
        = .ok (l.all fun col =>
            if (colOf g col).contains 0 then true
            else
              decide (check_visibility_from_direction (colOf g col)
                  = (clues.top.getD col 0 : Int)) &&
              decide (check_visibility_from_direction (colOf g col).reverse
                  = (clues.bottom.getD col 0 : Int))) := by
  intro l
  induction l with
  | nil => intro _; rfl
  | cons col rest ih =>
    intro hmem
    have hc : col < 6 := hmem col (List.mem_cons_self col rest)
    have hrest : ∀ j ∈ rest, j < 6 := fun j hj => hmem j (List.mem_cons_of_mem _ hj)
    simp only [cvc_colsE]
    rw [col_loopE_ok hwP hc (List.range GRID_SIZE) (fun i hi => List.mem_range.mp hi),
      bind_ok]
    have hfold : List.map (fun r => cellg g r col) (List.range GRID_SIZE) = colOf g col :=
      rfl
    rw [hfold]
    by_cases hfull : (colOf g col).contains 0 = true
    · rw [if_pos hfull, ih hrest]
      congr 1
      rw [List.all_cons, if_pos hfull, Bool.true_and]
    · rw [if_neg hfull, clueAtE_ok htop hc, bind_ok, clueAtE_ok hbot hc, bind_ok]
      by_cases hok : check_visibility_from_direction (colOf g col)
            = (clues.top.getD col 0 : Int) ∧
          check_visibility_from_direction (colOf g col).reverse
            = (clues.bottom.getD col 0 : Int)
      · rw [if_pos hok, ih hrest]
        congr 1
        rw [List.all_cons, if_neg hfull, decide_eq_true hok.1, decide_eq_true hok.2,
          Bool.true_and, Bool.true_and]
      · rw [if_neg hok]
        have hb : (decide (check_visibility_from_direction (colOf g col)
              = (clues.top.getD col 0 : Int)) &&
            decide (check_visibility_from_direction (colOf g col).reverse
              = (clues.bottom.getD col 0 : Int))) = false := by
          rcases not_and_or.mp hok with h | h
          · rw [decide_eq_false h, Bool.false_and]
          · rw [decide_eq_false h, Bool.and_false]
        rw [List.all_cons, if_neg hfull, hb, Bool.false_and]
        rfl

theorem cvc_rowsE_ok {clues : Clues} {g : Grid} (hwP : Wf g)
    (hleft : clues.left.length = 6) (hright : clues.right.length = 6) :
    ∀ l : List Nat, (∀ i ∈ l, i < 6) →
      cvc_rowsE clues g l
        = .ok (l.all fun row =>
            if (g.getD row []).contains 0 then true
            else
              decide (check_visibility_from_direction (g.getD row [])
                  = (clues.left.getD row 0 : Int)) &&
              decide (check_visibility_from_direction (g.getD row []).reverse
                  = (clues.right.getD row 0 : Int))) := by
  intro l
  induction l with
  | nil => intro _; rfl
  | cons row rest ih =>
    intro hmem
    have hr : row < 6 := hmem row (List.mem_cons_self row rest)
    have hrest : ∀ j ∈ rest, j < 6 := fun j hj => hmem j (List.mem_cons_of_mem _ hj)
    simp only [cvc_rowsE]
    rw [getRowE_ok hwP hr, bind_ok]
    by_cases hfull : (g.getD row []).contains 0 = true
    · rw [if_pos hfull, ih hrest]
      congr 1
      rw [List.all_cons, if_pos hfull, Bool.true_and]
    · rw [if_neg hfull, clueAtE_ok hleft hr, bind_ok, clueAtE_ok hright hr, bind_ok]
      by_cases hok : check_visibility_from_direction (g.getD row [])
            = (clues.left.getD row 0 : Int) ∧
          check_visibility_from_direction (g.getD row []).reverse
            = (clues.right.getD row 0 : Int)
      · rw [if_pos hok, ih hrest]
        congr 1
        rw [List.all_cons, if_neg hfull, decide_eq_true hok.1, decide_eq_true hok.2,
          Bool.true_and, Bool.true_and]
      · rw [if_neg hok]
        have hb : (decide (check_visibility_from_direction (g.getD row [])
              = (clues.left.getD row 0 : Int)) &&
            decide (check_visibility_from_direction (g.getD row []).reverse
              = (clues.right.getD row 0 : Int))) = false := by
          rcases not_and_or.mp hok with h | h
          · rw [decide_eq_false h, Bool.false_and]
          · rw [decide_eq_false h, Bool.and_false]
        rw [List.all_cons, if_neg hfull, hb, Bool.false_and]
        rfl

theorem cvcE_ok {p : Puzzle} (hwP : WfP p) (g : Grid) (hwg : Wf g) :
    check_visibility_constraintsE p.clues g
      = .ok (check_visibility_constraints p.clues g) := by
  obtain ⟨-, htop, hright, hbot, hleft⟩ := hwP
  unfold check_visibility_constraintsE
  rw [cvc_colsE_ok hwg htop hbot (List.range GRID_SIZE) (fun i hi => List.mem_range.mp hi),
    bind_ok]
  by_cases hcols : ((List.range GRID_SIZE).all fun col =>
      if (colOf g col).contains 0 then true
      else
        decide (check_visibility_from_direction (colOf g col)
            = (p.clues.top.getD col 0 : Int)) &&
        decide (check_visibility_from_direction (colOf g col).reverse
            = (p.clues.bottom.getD col 0 : Int))) = true
  · rw [if_pos hcols]
    rw [cvc_rowsE_ok hwg hleft hright (List.range GRID_SIZE)
      (fun i hi => List.mem_range.mp hi)]
    unfold check_visibility_constraints
    rw [hcols]
    rfl
  · rw [if_neg hcols]
    unfold check_visibility_constraints
    rw [eq_false_of_ne_true hcols]
    rfl

theorem is_valid_moveE_ok {p : Puzzle} (hwP : WfP p) {row col : Nat}
    (hrow : row < 6) (hcol : col < 6) (num : Nat) (cv : Bool) :
    is_valid_moveE p row col num cv = .ok (is_valid_move p row col num cv) := by
  have hwf : Wf p.grid := hwP.1
  unfold is_valid_moveE is_valid_move is_valid_move_st
  by_cases h1 : num < 1 || 6 < num
  · rw [if_pos h1, if_pos h1]
    rfl
  · rw [if_neg h1, if_neg h1, conflict_loopE_eq hwf hrow hcol num, bind_ok]
    by_cases h2 : conflict_exists p.grid row col num = true
    · rw [if_pos h2, if_pos h2]
      rfl
    · rw [if_neg h2, if_neg h2]
      cases cv
      · rfl
      · rw [if_pos rfl, if_pos rfl, setCellE_ok hwf hrow hcol num, bind_ok,
          cvcE_ok hwP (setCell p.grid row col num) (Wf_setCell row col num hwf), bind_ok]
        rcases h3 : check_visibility_constraints p.clues (setCell p.grid row col num)
          with _ | _
        · rw [if_pos (by simp [h3]), if_pos (by simp [h3])]
          rfl
        · rw [if_neg (by simp [h3]), if_neg (by simp [h3])]
          rfl

theorem valid_countE_ok {p : Puzzle} (hwP : WfP p) {row col : Nat}
    (hrow : row < 6) (hcol : col < 6) :
    ∀ l : List Nat,
      valid_countE p row col l = .ok (l.countP fun num => is_valid_move p row col num false) := by
  intro l
  induction l with
  | nil => rfl
  | cons num rest ih =>
    simp only [valid_countE]
    rw [is_valid_moveE_ok hwP hrow hcol num false, bind_ok, ih, bind_ok,
      List.countP_cons]
    rcases hb : is_valid_move p row col num false with _ | _
    · rw [if_neg (by simp)]
      simp only [Bool.false_eq_true, if_false, Nat.add_zero]
      rfl
    · rw [if_pos rfl]
      simp only [if_pos rfl]
      rfl

theorem valid_countE_eq {p : Puzzle} (hwP : WfP p) {row col : Nat}
    (hrow : row < 6) (hcol : col < 6) :
    valid_countE p row col (List.range' 1 GRID_SIZE) = .ok (valid_count p row col) :=
  valid_countE_ok hwP hrow hcol (List.range' 1 GRID_SIZE)

theorem mrv_loopE_ok {p : Puzzle} (hwP : WfP p) :
    ∀ l : List (Nat × Nat), (∀ pos ∈ l, pos.1 < 6 ∧ pos.2 < 6) →
      ∀ (m : Nat) (best : Option (Nat × Nat)),
        mrv_loopE p l m best = .ok (mrv_loop p l m best) := by
  intro l
  induction l with
  | nil => intro _ m best; rfl
  | cons pos rest ih =>
    intro hmem m best
    obtain ⟨h1, h2⟩ := hmem pos (List.mem_cons_self pos rest)
    have hrest := fun q hq => hmem q (List.mem_cons_of_mem _ hq)
    simp only [mrv_loopE, mrv_loop]
    rw [getCellE_ok hwP.1 h1 h2, bind_ok]
    by_cases h0 : cellg p.grid pos.1 pos.2 = 0
    · rw [if_pos h0, if_pos h0, valid_countE_eq hwP h1 h2, bind_ok]
      by_cases hc : 0 < valid_count p pos.1 pos.2 ∧
          valid_count p pos.1 pos.2 < m
      · rw [if_pos hc, if_pos hc, ih hrest]
      · rw [if_neg hc, if_neg hc, ih hrest]
    · rw [if_neg h0, if_neg h0, ih hrest]

theorem get_mrvE_ok {p : Puzzle} (hwP : WfP p) : get_mrvE p = .ok (get_mrv p) :=
  mrv_loopE_ok hwP positions
    (fun pos hpos => (mem_positions_iff pos).mp hpos) 7 none

theorem check_winE_ok {p : Puzzle} (hwP : WfP p) :
    check_winE p = .ok (check_win p) := by
  unfold check_winE check_win
  by_cases h : (p.grid.any fun row => row.contains 0) = true
  · rw [if_pos h, if_pos h]
    rfl
  · rw [if_neg h, if_neg h]
    exact cvcE_ok hwP p.grid hwP.1

/-! ### The search preserves well-formedness -/

theorem solveNums_wfP (recur : Puzzle → Bool × Puzzle)
    (hrec : ∀ q, WfP q → WfP (recur q).2) (row col : Nat) :
    ∀ (nums : List Nat) (p : Puzzle), WfP p →
      WfP (solveNums recur p row col nums).2 := by
  intro nums
  induction nums with
  | nil => intro p h; exact h
  | cons num rest ih =>
    intro p hwP
    simp only [solveNums]
    by_cases hv : is_valid_move p row col num true = true
    · rw [if_pos hv]
      rcases hq : recur (setPuzzle p row col num) with ⟨b, q⟩
      have hw1 : WfP (setPuzzle p row col num) :=
        ⟨Wf_setCell row col num hwP.1, hwP.2⟩
      have hwq : WfP q := by
        have := hrec _ hw1
        rw [hq] at this
        exact this
      cases b
      · exact ih _ ⟨Wf_setCell row col 0 hwq.1, hwq.2⟩
      · exact hwq
    · rw [if_neg hv]
      exact ih p hwP

theorem solveGen_wfP (sel : Puzzle → Option (Nat × Nat)) :
    ∀ (fuel : Nat) (p : Puzzle), WfP p → WfP (solveGen sel fuel p).2 := by
  intro fuel
  induction fuel with
  | zero => intro p h; exact h
  | succ fuel ih =>
    intro p hwP
    simp only [solveGen]
    by_cases hw : check_win p = true
    · rw [if_pos hw]
      exact hwP
    · rw [if_neg hw]
      rcases hselp : sel p with _ | ⟨row, col⟩
      · exact hwP
      · exact solveNums_wfP (solveGen sel fuel) ih row col _ p hwP

/-! ### Agreement of the raising and the total search -/

theorem solveNumsE_ok (recur : Puzzle → Bool × Puzzle)
    (recurE : Puzzle → Except (String × Puzzle) (Bool × Puzzle))
    (hrecE : ∀ q, WfP q → recurE q = .ok (recur q))
    (hrecW : ∀ q, WfP q → WfP (recur q).2)
    (row col : Nat) (hrow : row < 6) (hcol : col < 6) :
    ∀ (nums : List Nat) (p : Puzzle), WfP p →
      solveNumsE recurE p row col nums = .ok (solveNums recur p row col nums) := by
  intro nums
  induction nums with
  | nil => intro p _; rfl
  | cons num rest ih =>
    intro p hwP
    simp only [solveNumsE, solveNums]
    rw [is_valid_moveE_ok hwP hrow hcol num true, withState_ok, bind_ok]
    by_cases hv : is_valid_move p row col num true = true
    · rw [if_pos hv, if_pos hv, setCellE_ok hwP.1 hrow hcol num, withState_ok, bind_ok]
      have hw1 : WfP (setPuzzle p row col num) :=
        ⟨Wf_setCell row col num hwP.1, hwP.2⟩
      have hgrid : ({ p with grid := setCell p.grid row col num } : Puzzle)
          = setPuzzle p row col num := rfl
      rw [hgrid, hrecE _ hw1]
      rcases hq : recur (setPuzzle p row col num) with ⟨b, q⟩
      have hwq : WfP q := by
        have := hrecW _ hw1
        rw [hq] at this
        exact this
      cases b
      · simp only
        rw [setCellE_ok hwq.1 hrow hcol 0, withState_ok, bind_ok]
        have hgrid2 : ({ q with grid := setCell q.grid row col 0 } : Puzzle)
            = setPuzzle q row col 0 := rfl
        rw [hgrid2]
        exact ih _ ⟨Wf_setCell row col 0 hwq.1, hwq.2⟩
      · rfl
    · rw [if_neg hv, if_neg hv]
      exact ih p hwP

theorem solveGenE_ok :
    ∀ (fuel : Nat) (p : Puzzle), WfP p →
      solveGenE get_mrvE fuel p = .ok (solveGen get_mrv fuel p) := by
  intro fuel
  induction fuel with
  | zero => intro p _; rfl
  | succ fuel ih =>
    intro p hwP
    simp only [solveGenE, solveGen]
    rw [check_winE_ok hwP, withState_ok, bind_ok]
    by_cases hw : check_win p = true
    · rw [if_pos hw, if_pos hw]
      rfl
    · rw [if_neg hw, if_neg hw, get_mrvE_ok hwP, withState_ok, bind_ok]
      rcases hsel : get_mrv p with _ | ⟨row, col⟩
      · rfl
      · obtain ⟨hrow, hcol, -⟩ := get_mrv_some_props p (row, col) hsel
        exact solveNumsE_ok (solveGen get_mrv fuel) (solveGenE get_mrvE fuel) ih
          (solveGen_wfP get_mrv fuel) row col hrow hcol _ p hwP

/-! ### Claim C8 -/

/-- C8: the search never raises on a well-formed puzzle — the raising
embedding returns `.ok` of exactly what the total search computes, so `solve`
equals `_solve_helper` and reports absence of a solution as an ordinary false
return; and when an unexpected fault does escape `_solve_helper` (malformed
state), the `try/except` at the single `solve` entry point converts it into a
false return (with the grid as mutated at the raise), indistinguishable in
shape from "no solution". -/
theorem C8_solve_never_raises :
    (∀ fuel p, WfP p → solve_helperE fuel p = .ok (solve_helper fuel p)) ∧
    (∀ p, WfP p → solveE p = solve p) ∧
    (∀ p msg q, solve_helperE (countZeros p.grid + 1) p = .error (msg, q) →
      solveE p = (false, q)) := by
  refine ⟨fun fuel p hwP => solveGenE_ok fuel p hwP, ?_, ?_⟩
  · intro p hwP
    unfold solveE solve solve_helper
    rw [show solve_helperE (countZeros p.grid + 1) p
        = .ok (solveGen get_mrv (countZeros p.grid + 1) p) from
      solveGenE_ok (countZeros p.grid + 1) p hwP]
  · intro p msg q h
    unfold solveE
    rw [h]

/-- C8 witness: the raising and total searches agree on the fresh puzzle, and
on the malformed empty-grid state the escaped `IndexError` is converted into
a false return. -/
theorem C8_witness :
    solve_helperE (countZeros initPuzzle.grid + 1) initPuzzle
        = .ok (solve_helper (countZeros initPuzzle.grid + 1) initPuzzle) ∧
    solveE initPuzzle = solve initPuzzle ∧
    solveE badPuzzle = (false, badPuzzle) :=
  ⟨C8_solve_never_raises.1 (countZeros initPuzzle.grid + 1) initPuzzle (by decide),
   C8_solve_never_raises.2.1 initPuzzle (by decide),
   C8_solve_never_raises.2.2 badPuzzle "IndexError" badPuzzle (by rfl)⟩

end Skyscraper
